import Mathlib

/-!
Verification of the gtmpal processing coordinator and its text-scraping
routines. Strings are modelled as `List Char`; the JavaScript regular
expressions of the source are embedded as deterministic scanners whose
semantics coincide with the JS engine on these patterns (the patterns have
no genuine backtracking: every lazy or greedy part is forced by the
surrounding literals, as argued in the doc comments below).
-/

namespace GtmPal

/-- The literal "```" (a triple backtick fence), as in the regex
of `parseSolution` in src/electron/ProcessingHelper.ts line 445. -/
def tks : List Char := "```".toList

/-- Exact prefix test: `hasPref p l` holds when `l` begins with `p`. -/
def hasPref : List Char → List Char → Bool
  | [], _ => true
  | _ :: _, [] => false
  | p :: ps, c :: cs => p == c && hasPref ps cs

/-- JS `.` without the `s` flag excludes the four line terminators
(LF, CR, LS U+2028, PS U+2029). -/
def isLineTerminator (c : Char) : Bool :=
  c == '\u000a' || c == '\u000d' || c == '\u2028' || c == '\u2029'

/-- JS `\s`: whitespace and line terminators (ECMA-262 WhiteSpace and
LineTerminator, with the BOM; the code points U+2000 through U+200A are
listed one by one). -/
def isJsSpace (c : Char) : Bool :=
  c == '\u0009' || c == '\u000a' || c == '\u000b' || c == '\u000c' ||
  c == '\u000d' || c == ' ' || c == '\u00a0' || c == '\u1680' ||
  c == '\u2000' || c == '\u2001' || c == '\u2002' || c == '\u2003' ||
  c == '\u2004' || c == '\u2005' || c == '\u2006' || c == '\u2007' ||
  c == '\u2008' || c == '\u2009' || c == '\u200a' ||
  c == '\u2028' || c == '\u2029' ||
  c == '\u202f' || c == '\u205f' || c == '\u3000' || c == '\ufeff'

/-- Case-insensitive character comparison as the JS `i` flag canonicalises
it for the ASCII pattern literals of the source ("time", "space",
"complexity", "## Complexity"): ASCII letters fold together, and a
non-ASCII character never folds onto an ASCII one. -/
def eqCI (a b : Char) : Bool := a.toUpper == b.toUpper

/-- Case-insensitive prefix test of the pattern `p` against `l`. -/
def matchesCI : List Char → List Char → Bool
  | [], _ => true
  | _ :: _, [] => false
  | p :: ps, c :: cs => eqCI c p && matchesCI ps cs

/-- The character class `[OΘΩ]` under the `i` flag: each letter together
with everything JS case folding sends to it. -/
def isBigO (c : Char) : Bool :=
  c == 'O' || c == 'o' || c == 'Θ' || c == 'θ' || c == 'ϑ' || c == 'Ω' || c == 'ω'

/-- The forced residue of the lazy `(?:.*?)\n` of the code-block regex:
its dot cannot cross any line terminator, so the attempt succeeds only
when the first line terminator of the list is an LF — the suffix after
that LF — and fails on a CR, LS or PS. -/
def afterNewline : List Char → Option (List Char)
  | [] => none
  | c :: cs =>
    if c == '\n' then some cs
    else if isLineTerminator c then none
    else afterNewline cs

/-- The prefix of the list before its first occurrence of "```", if one
occurs: the forced value of the lazy `([\s\S]*?)` followed by the literal
closing fence. -/
def bodyToFence : List Char → Option (List Char)
  | [] => none
  | c :: cs =>
    if hasPref tks (c :: cs) then some []
    else (bodyToFence cs).map (fun b => c :: b)

/-- One attempt of the regex ```` /```(?:.*?)\n([\s\S]*?)```/ ```` at the
head of the list: the capture group, if the whole pattern matches here. -/
def tryBlock (l : List Char) : Option (List Char) :=
  if hasPref tks l then
    match afterNewline (l.drop 3) with
    | some r => bodyToFence r
    | none => none
  else none

/-- Group 1 of the first match of the code-block regex
(`codeMatches[0][1]` in ProcessingHelper.ts lines 445-446 and
OpenAIService parseSolution): the JS engine tries each start position from
the left. -/
def firstCodeBlock : List Char → Option (List Char)
  | [] => none
  | c :: cs =>
    match tryBlock (c :: cs) with
    | some b => some b
    | none => firstCodeBlock cs

/-- `solutionText.split("```")[0]`: the prefix before the first fence
(the whole text when no fence occurs). -/
def beforeTicks : List Char → List Char
  | [] => []
  | c :: cs => if hasPref tks (c :: cs) then [] else c :: beforeTicks cs

/-- After a literal '(' : the greedy `[^)]+\)`. The run of non-')'
characters is forced (neither side can trade characters with the other),
so the group matches exactly when that run is nonempty and a ')' follows.
Returns the consumed characters `'(' :: run ++ [')']` and the rest. -/
def parenGroup : List Char → Option (List Char × List Char)
  | [] => none
  | c :: cs =>
    if c == '(' then
      let run := cs.takeWhile (fun d => d != ')')
      let rest := cs.dropWhile (fun d => d != ')')
      if run.isEmpty then none
      else
        match rest with
        | d :: r2 => if d == ')' then some ('(' :: run ++ [')'], r2) else none
        | [] => none
    else none

/-- The lazy `.*?[OΘΩ]\([^)]+\)` tail of the complexity regex: scan
forward over non-line-terminator characters for the first class character
followed by a valid parenthesised group; returns the consumed characters
and the rest. -/
def scanBigO : List Char → Option (List Char × List Char)
  | [] => none
  | c :: cs =>
    if isBigO c then
      match parenGroup cs with
      | some (g, rest) => some (c :: g, rest)
      | none =>
        if isLineTerminator c then none
        else (scanBigO cs).map (fun p => (c :: p.1, p.2))
    else
      if isLineTerminator c then none
      else (scanBigO cs).map (fun p => (c :: p.1, p.2))

/-- The literal "complexity" of the complexity regex. -/
def cmplxStr : List Char := "complexity".toList

/-- One attempt of `` `${type}\s*complexity.*?[OΘΩ]\([^)]+\)` `` (flag i)
at the head of `l`: the whole match, if the pattern matches here. The
greedy `\s*` is forced because 'c'/'C' is not whitespace. -/
def tryComplexityAt (ty l : List Char) : Option (List Char) :=
  if matchesCI ty l then
    let m1 := l.take ty.length
    let r1 := l.drop ty.length
    let ws := r1.takeWhile isJsSpace
    let r2 := r1.dropWhile isJsSpace
    if matchesCI cmplxStr r2 then
      let m2 := r2.take cmplxStr.length
      let r3 := r2.drop cmplxStr.length
      match scanBigO r3 with
      | some (m3, _) => some (m1 ++ ws ++ m2 ++ m3)
      | none => none
    else none
  else none

/-- `text.match(regex)[0]` for the complexity regex: the leftmost match. -/
def firstComplexity (ty : List Char) : List Char → Option (List Char)
  | [] => none
  | c :: cs =>
    match tryComplexityAt ty (c :: cs) with
    | some m => some m
    | none => firstComplexity ty cs

/-- `type.charAt(0).toUpperCase() + type.slice(1)`. -/
def capFirst : List Char → List Char
  | [] => []
  | c :: cs => c.toUpper :: cs

/-- The `type: "time" | "space"` union of the source. -/
inductive CType
  | time
  | space
deriving DecidableEq

/-- The string the source interpolates for each complexity type. -/
def CType.str : CType → List Char
  | .time => "time".toList
  | .space => "space".toList

/-- The record `{ code, thoughts, time_complexity, space_complexity }`
returned by the parseSolution routines. -/
structure Solution where
  code : List Char
  thoughts : List (List Char)
  time_complexity : List Char
  space_complexity : List Char
deriving DecidableEq

namespace ProcessingHelper

/-- `extractComplexity` of src/electron/ProcessingHelper.ts lines 449-453:
the first match of the complexity regex, else the fixed fallback. -/
def extractComplexity (text : List Char) (ty : CType) : List Char :=
  match firstComplexity ty.str text with
  | some m => m
  | none => capFirst ty.str ++ " complexity not specified".toList

/-- `parseSolution` of src/electron/ProcessingHelper.ts lines 443-461. -/
def parseSolution (solutionText : List Char) : Solution :=
  { code :=
      match firstCodeBlock solutionText with
      | some b => b
      | none => solutionText
    thoughts := ["Solution analysis:\n".toList ++ beforeTicks solutionText]
    time_complexity := extractComplexity solutionText .time
    space_complexity := extractComplexity solutionText .space }

end ProcessingHelper

namespace OpenAIServiceStore

/-- `extractComplexity` of the store-based OpenAIService
(src/electron/OpenAIService.ts lines 341-345, identical in
src/unnamed/part_002). -/
def extractComplexity (text : List Char) (ty : CType) : List Char :=
  match firstComplexity ty.str text with
  | some m => m
  | none => capFirst ty.str ++ " complexity not specified".toList

/-- `parseSolution` of the store-based OpenAIService
(src/electron/OpenAIService.ts lines 328-339, identical in
src/unnamed/part_002). -/
def parseSolution (solutionText : List Char) : Solution :=
  { code :=
      match firstCodeBlock solutionText with
      | some b => b
      | none => solutionText
    thoughts := ["Solution analysis:\n".toList ++ beforeTicks solutionText]
    time_complexity := extractComplexity solutionText .time
    space_complexity := extractComplexity solutionText .space }

end OpenAIServiceStore

namespace OpenAIServiceEnvKey

/-- The literal "## Complexity" of the section regex. -/
def secHdr : List Char := "## Complexity".toList

/-- The lazy `[\s\S]*?` of the section regex followed by the inner
complexity pattern: it consumes any characters until the first position
where the inner pattern matches; returns the consumed gap followed by the
inner match. -/
def scanToComplexity (ty : List Char) : List Char → Option (List Char)
  | [] => tryComplexityAt ty []
  | c :: cs =>
    match tryComplexityAt ty (c :: cs) with
    | some m => some m
    | none => (scanToComplexity ty cs).map (fun g => c :: g)

/-- One attempt of the section regex
`` `## Complexity[\s\S]*?${type}\s*complexity.*?[OΘΩ]\([^)]+\)` `` (flag i)
at the head of `l`. -/
def trySectionAt (ty l : List Char) : Option (List Char) :=
  if matchesCI secHdr l then
    (scanToComplexity ty (l.drop secHdr.length)).map
      (fun g => l.take secHdr.length ++ g)
  else none

/-- The leftmost match of the section regex. -/
def firstSection (ty : List Char) : List Char → Option (List Char)
  | [] => none
  | c :: cs =>
    match trySectionAt ty (c :: cs) with
    | some m => some m
    | none => firstSection ty cs

/-- `extractComplexity` of the first (environment-key) OpenAIService
variant, src/electron/OpenAIService.ts lines 170-185: look inside a
"## Complexity" section first; fall back to the whole text, and when
nothing matches at all default to "<Type> complexity: O(n)". -/
def extractComplexity (text : List Char) (ty : CType) : List Char :=
  match firstSection ty.str text with
  | some sec =>
    match firstComplexity ty.str sec with
    | some m => m
    | none => capFirst ty.str ++ " complexity not specified".toList
  | none =>
    match firstComplexity ty.str text with
    | some m => m
    | none => capFirst ty.str ++ " complexity: O(n)".toList

end OpenAIServiceEnvKey

/-! ## The processing coordinator

State-passing embedding of the `ProcessingHelper` class
(src/electron/ProcessingHelper.ts). Remote calls are resolved by an
oracle environment; every `webContents.send`, every remote request and
every `deps.setProblemInfo` is recorded in an event trace. -/

/-- JS `String.prototype.includes`. -/
def includesStr (needle : List Char) : List Char → Bool
  | [] => hasPref needle []
  | c :: cs => hasPref needle (c :: cs) || includesStr needle cs

/-- The three-way view flag (`deps.getView` / `deps.setView`). -/
inductive View
  | queue
  | solutions
  | debug
deriving DecidableEq

/-- The names of the `PROCESSING_EVENTS` channels used by the coordinator,
with the plain "reset-view" channel. -/
inductive EvName
  | INITIAL_START
  | NO_SCREENSHOTS
  | API_KEY_MISSING
  | PROBLEM_EXTRACTED
  | SOLUTION_SUCCESS
  | INITIAL_SOLUTION_ERROR
  | DEBUG_START
  | DEBUG_SUCCESS
  | DEBUG_ERROR
  | OUT_OF_CREDITS
  | API_KEY_INVALID
  | RESET_VIEW
deriving DecidableEq

/-- The three remote calls the coordinator makes: the OpenAI
problem-extraction call, the OpenAI solution-generation call, and the
axios `/api/debug` call. -/
inductive ReqKind
  | extractProblem
  | generateSolution
  | debugCall
deriving DecidableEq

/-- An observable step: an event sent to the renderer, a remote request
(with the payload the code puts in it), or a `deps.setProblemInfo`. -/
inductive Ev
  | sent (name : EvName)
  | request (kind : ReqKind) (payload : List (List Char))
  | storeProblemInfo (value : Option (List Char))
deriving DecidableEq

/-- The error shape the catch blocks inspect: `message`, `code`,
`response?.status`, `response?.data?.error`, and `axios.isCancel`. -/
structure JsError where
  message : List Char
  code : Option (List Char) := none
  status : Option Nat := none
  dataError : Option (List Char) := none
  isCancel : Bool := false
deriving DecidableEq

/-- The outcome the oracle assigns to one remote call. -/
inductive RR
  | ok (content : List Char)
  | err (e : JsError)
deriving DecidableEq

/-- A BrowserWindow, reduced to what the coordinator reads of it. -/
structure Window where
  destroyed : Bool
deriving DecidableEq

/-- The OpenAI service object returned by `deps.getOpenAIService`,
reduced to its `hasKey()` answer. -/
structure Service where
  keyOk : Bool
deriving DecidableEq

/-- The read-only oracle: the main window, the environment API key, the
service object, whether screenshot files read successfully, the file
contents, and the outcomes of the extraction and debug calls (the
solution-generation outcomes live in the state, since that call can
happen more than once per run). -/
structure Env where
  window : Option Window
  apiKeyEnv : Bool
  service : Option Service
  filesOk : Bool
  readFile : List Char → List Char
  extractResult : RR
  debugResult : RR

/-- The mutable state of the coordinator: the view flag, the stored
problem info, the debug flag, the two screenshot queues (modelled from
the spec, see `clearQueues`), the two abort-controller fields (as signal
ids), the set of aborted signals, a fresh-id counter, the event trace,
and the oracle's queue of solution-generation outcomes. -/
structure St where
  view : View
  problemInfo : Option (List Char)
  hasDebugged : Bool
  queueMain : List (List Char)
  queueExtra : List (List Char)
  cpac : Option Nat
  cepac : Option Nat
  aborted : List Nat
  nextId : Nat
  trace : List Ev
  genResults : List RR

/-- Append one sent event to the trace. -/
def emit (st : St) (n : EvName) : St :=
  { st with trace := st.trace ++ [Ev.sent n] }

/-- Record a remote request in the trace. -/
def recordReq (st : St) (k : ReqKind) (payload : List (List Char)) : St :=
  { st with trace := st.trace ++ [Ev.request k payload] }

/-- Modelled from the spec: `deps.setProblemInfo` (its implementation in
electron/main.ts is not part of the sources) stores the value and is
recorded in the trace. -/
def setProblemInfo (st : St) (v : Option (List Char)) : St :=
  { st with problemInfo := v, trace := st.trace ++ [Ev.storeProblemInfo v] }

/-- Modelled from the spec: `deps.clearQueues` clears both screenshot
queues ("Clear both screenshot queues" in the source comment; the
implementation in electron/main.ts is not part of the sources). -/
def clearQueues (st : St) : St :=
  { st with queueMain := [], queueExtra := [] }

/-- Whether `mainWindow && !mainWindow.isDestroyed()` holds. -/
def windowAlive (env : Env) : Bool :=
  match env.window with
  | some w => !w.destroyed
  | none => false

/-- `cancelOngoingRequests` of src/electron/ProcessingHelper.ts lines
551-577: abort and null both controllers, reset `hasDebugged`, clear the
problem info, and send NO_SCREENSHOTS when something was cancelled and
the window is alive. -/
def cancelOngoingRequests (env : Env) (st : St) : St :=
  let p1 :=
    match st.cpac with
    | some sid =>
      ({ st with aborted := st.aborted ++ [sid], cpac := none }, true)
    | none => (st, false)
  let p2 :=
    match p1.1.cepac with
    | some sid =>
      ({ p1.1 with aborted := p1.1.aborted ++ [sid], cepac := none }, true)
    | none => (p1.1, p1.2)
  let st2 := { p2.1 with hasDebugged := false }
  let st3 := setProblemInfo st2 none
  if p2.2 && windowAlive env then emit st3 .NO_SCREENSHOTS else st3

/-- The `{ success, data | error }` results the helpers return: `α` is
the shape of the `data` field (a parsed solution, or the raw body of the
debug endpoint's reply). -/
inductive Res (α : Type)
  | success (data : α)
  | failure (error : List Char)
deriving DecidableEq

/-- Result shape of `processScreenshotsHelper` / `generateSolutionsHelper`. -/
abbrev HelpRes := Res Solution

/-- The catch block of `generateSolutionsHelper`
(src/electron/ProcessingHelper.ts lines 386-439): timeout, credits and
invalid-key errors get dedicated handling, anything else returns its
message (or the fixed fallback for an empty one). -/
def genCatch (env : Env) (st : St) (e : JsError) : HelpRes × St :=
  if e.code == some "ECONNABORTED".toList || e.status == some 504 then
    let st1 := cancelOngoingRequests env st
    let st2 := clearQueues st1
    let st3 := { st2 with view := View.queue }
    let st4 :=
      if windowAlive env then
        emit (emit st3 .RESET_VIEW) .INITIAL_SOLUTION_ERROR
      else st3
    (.failure "Request timed out. Please try again.".toList, st4)
  else if (e.dataError.map (includesStr "API Key out of credits".toList)).getD false then
    let st1 := if env.window.isSome then emit st .OUT_OF_CREDITS else st
    (.failure (e.dataError.getD []), st1)
  else if (e.dataError.map (includesStr
      "Please close this window and re-enter a valid Open AI API key.".toList)).getD false then
    let st1 := if env.window.isSome then emit st .API_KEY_INVALID else st
    (.failure (e.dataError.getD []), st1)
  else
    (.failure (if e.message.isEmpty then
        "Unknown error in solution generation".toList else e.message), st)

/-- `generateSolutionsHelper` of src/electron/ProcessingHelper.ts lines
327-440: guard the API key and the stored problem info, make one
solution-generation call, parse its reply; every thrown error lands in
`genCatch`. The call consumes the next oracle outcome. -/
def generateSolutionsHelper (env : Env) (st : St) : HelpRes × St :=
  if !env.apiKeyEnv then
    genCatch env st
      { message := "OpenAI API key not found in environment variables".toList }
  else
    match st.problemInfo with
    | none => genCatch env st { message := "No problem info available".toList }
    | some pi =>
      let res := st.genResults.headD (RR.err { message := "no response".toList })
      let st1 := recordReq { st with genResults := st.genResults.tail }
        .generateSolution [pi]
      match res with
      | .ok text => (.success (ProcessingHelper.parseSolution text), st1)
      | .err e => genCatch env st1 e

/-- One pass of the retry loop of `processScreenshotsHelper`
(src/electron/ProcessingHelper.ts lines 216-325). `MAX_RETRIES = 0`, and
the catch block returns on every error (`retryCount >= MAX_RETRIES` is
0 >= 0), so the loop body runs again only on the no-window path, where
the try block falls through without returning; `fuel` bounds that
unrolling, `none` meaning the loop is still running. -/
def processScreenshotsHelperLoop (env : Env) (images : List (List Char)) :
    Nat → St → Option (HelpRes × St)
  | 0, _ => none
  | fuel + 1, st =>
    if !env.apiKeyEnv then
      some (.failure "OpenAI API key not found in environment variables".toList, st)
    else
      let st1 := recordReq st .extractProblem images
      match env.extractResult with
      | .err e => some (.failure e.message, st1)
      | .ok content =>
        let st2 := setProblemInfo st1 (some content)
        match env.window with
        | none => processScreenshotsHelperLoop env images fuel st2
        | some _ =>
          let st3 := emit st2 .PROBLEM_EXTRACTED
          let r := generateSolutionsHelper env st3
          match r.1 with
          | .success data =>
            let st4 := { r.2 with queueExtra := [] }
            some (.success data, emit st4 .SOLUTION_SUCCESS)
          | .failure msg =>
            some (.failure (if msg.isEmpty then
                "Failed to generate solutions".toList else msg), r.2)

/-- `processScreenshotsHelper`: the loop with its initial
`retryCount = 0`. -/
def processScreenshotsHelper (env : Env) (images : List (List Char))
    (fuel : Nat) (st : St) : Option (HelpRes × St) :=
  processScreenshotsHelperLoop env images fuel st

/-- `processExtraScreenshotsHelper` of src/electron/ProcessingHelper.ts
lines 463-549: guard the problem info, post the combined screenshots to
the debug endpoint, and map the error cases. -/
def processExtraScreenshotsHelper (env : Env) (images : List (List Char))
    (st : St) : Res (List Char) × St :=
  match st.problemInfo with
  | none => (.failure "No problem info available".toList, st)
  | some _ =>
    let st1 := recordReq st .debugCall images
    match env.debugResult with
    | .ok data => (.success data, st1)
    | .err e =>
      if e.isCancel then
        (.failure "Processing was canceled by the user.".toList, st1)
      else if (e.dataError.map (includesStr "Operation timed out".toList)).getD false then
        let st2 := cancelOngoingRequests env st1
        let st3 := clearQueues st2
        let st4 := { st3 with view := View.queue }
        let st5 :=
          if windowAlive env then
            emit (emit st4 .RESET_VIEW) .DEBUG_ERROR
          else st4
        (.failure "Operation timed out after 1 minute. Please try again.".toList, st5)
      else if (e.dataError.map (includesStr "API Key out of credits".toList)).getD false then
        let st2 := if env.window.isSome then emit st1 .OUT_OF_CREDITS else st1
        (.failure (e.dataError.getD []), st2)
      else if (e.dataError.map (includesStr
          "Please close this window and re-enter a valid Open AI API key.".toList)).getD false then
        let st2 := if env.window.isSome then emit st1 .API_KEY_INVALID else st1
        (.failure (e.dataError.getD []), st2)
      else
        (.failure e.message, st1)

/-- The tail of the extra-processing branch, from the point where the
abort controller has been installed: read the files (a failed read lands
in the catch as DEBUG_ERROR), post the combined queues to the debug
helper, send DEBUG_SUCCESS (setting `hasDebugged`) or DEBUG_ERROR, and
null the controller in the finally block. -/
def finishExtra (env : Env) (st2 : St) : St :=
  if !env.filesOk then
    { emit st2 .DEBUG_ERROR with cepac := none }
  else
    let images := (st2.queueMain ++ st2.queueExtra).map env.readFile
    let r := processExtraScreenshotsHelper env images st2
    match r.1 with
    | .success _ =>
      let st3 := { r.2 with hasDebugged := true }
      { emit st3 .DEBUG_SUCCESS with cepac := none }
    | .failure _ =>
      { emit r.2 .DEBUG_ERROR with cepac := none }

/-- The else (extra-processing) branch of `processScreenshots`
(src/electron/ProcessingHelper.ts lines 150-213): it never reads the view
flag. NO_SCREENSHOTS on an empty extra queue; otherwise DEBUG_START and a
fresh abort controller, then `finishExtra`. -/
def processExtraBranch (env : Env) (st : St) : St :=
  if st.queueExtra.isEmpty then emit st .NO_SCREENSHOTS
  else
    let st1 := emit st .DEBUG_START
    finishExtra env { st1 with cepac := some st1.nextId, nextId := st1.nextId + 1 }

/-- `processScreenshots` of src/electron/ProcessingHelper.ts lines
77-214. In the queue branch, after INITIAL_START and the emptiness,
service-key and file-read guards, it awaits `processScreenshotsHelper`
(discarding its result), then awaits `generateSolutionsHelper` a second
time, then sends SOLUTION_SUCCESS; neither helper ever throws, so the
catch at line 135 is reached only by a failed file read. `none` stands
for the one non-terminating path (no window inside the helper). -/
def processScreenshots (env : Env) (fuel : Nat) (st : St) : Option St :=
  match env.window with
  | none => some st
  | some _ =>
    if st.view = View.queue then
      let st1 := emit st .INITIAL_START
      if st1.queueMain.isEmpty then some (emit st1 .NO_SCREENSHOTS)
      else
        let st2 := { st1 with cpac := some st1.nextId, nextId := st1.nextId + 1 }
        let keyMissing :=
          match env.service with
          | some s => !s.keyOk
          | none => false
        if keyMissing then some (emit st2 .API_KEY_MISSING)
        else if !env.filesOk then some (emit st2 .INITIAL_SOLUTION_ERROR)
        else
          let images := st2.queueMain.map env.readFile
          match processScreenshotsHelper env images fuel st2 with
          | none => none
          | some (_, st3) =>
            let r2 := generateSolutionsHelper env st3
            some (emit r2.2 .SOLUTION_SUCCESS)
    else
      some (processExtraBranch env st)

/-! ## OpenAI client configuration

The options object passed to `new OpenAI({...})` at the two call sites of
ProcessingHelper. -/

/-- The `{ timeout, maxRetries }` options of the OpenAI client. -/
structure OpenAIClientCfg where
  timeoutMs : Nat
  maxRetries : Nat
deriving DecidableEq

/-- The client built inside `processScreenshotsHelper`
(src/electron/ProcessingHelper.ts lines 238-242). -/
def helperClientCfg : OpenAIClientCfg := { timeoutMs := 300000, maxRetries := 3 }

/-- The client built inside `generateSolutionsHelper`
(src/electron/ProcessingHelper.ts lines 347-351). -/
def genClientCfg : OpenAIClientCfg := { timeoutMs := 300000, maxRetries := 3 }

/-- The helper loop's own retry bound (src/electron/ProcessingHelper.ts
line 221). -/
def MAX_RETRIES : Nat := 0

/-! ## The flat key-value settings store

`initializeStore` of src/electron/ipcHandlers.ts lines 12-79: a JSON
object file. The file system is abstracted to the parsed object (`none`
when the file does not exist); a JS object is a finite map, modelled as
an association list. -/

/-- `{ ...config, [key]: value }`: an existing key keeps its position and
gets the new value; a new key is appended. -/
def setKey (k v : List Char) : List (List Char × List Char) → List (List Char × List Char)
  | [] => [(k, v)]
  | (k1, v1) :: rest =>
    if k1 = k then (k1, v) :: rest else (k1, v1) :: setKey k v rest

/-- `config[key]`: `undefined` is `none`. -/
def lookupKey (k : List Char) : List (List Char × List Char) → Option (List Char)
  | [] => none
  | (k1, v1) :: rest => if k1 = k then some v1 else lookupKey k rest

/-- The settings file: absent, or a parsed JSON object. -/
structure StoreFS where
  file : Option (List (List Char × List Char))
deriving DecidableEq

/-- `store.get` (ipcHandlers.ts lines 25-46): when the config file is
missing it creates an empty one and answers `undefined`; otherwise it
reads the file and answers `config[key]`. -/
def storeGet (k : List Char) (fs : StoreFS) : Option (List Char) × StoreFS :=
  match fs.file with
  | none => (none, { file := some [] })
  | some cfg => (lookupKey k cfg, fs)

/-- `store.set` (ipcHandlers.ts lines 47-71): read the current config
(`{}` when the file is missing), update the one key with a spread, write
the file back, and answer `true`. -/
def storeSet (k v : List Char) (fs : StoreFS) : Bool × StoreFS :=
  let cfg := fs.file.getD []
  (true, { file := some (setKey k v cfg) })

/-! ## Basic lemmas about the coordinator primitives -/

theorem emit_view (st : St) (n : EvName) : (emit st n).view = st.view := rfl

theorem emit_problemInfo (st : St) (n : EvName) :
    (emit st n).problemInfo = st.problemInfo := rfl

theorem emit_hasDebugged (st : St) (n : EvName) :
    (emit st n).hasDebugged = st.hasDebugged := rfl

theorem emit_queueMain (st : St) (n : EvName) :
    (emit st n).queueMain = st.queueMain := rfl

theorem emit_queueExtra (st : St) (n : EvName) :
    (emit st n).queueExtra = st.queueExtra := rfl

theorem emit_cpac (st : St) (n : EvName) : (emit st n).cpac = st.cpac := rfl

theorem emit_cepac (st : St) (n : EvName) : (emit st n).cepac = st.cepac := rfl

theorem emit_aborted (st : St) (n : EvName) : (emit st n).aborted = st.aborted := rfl

theorem emit_trace (st : St) (n : EvName) :
    (emit st n).trace = st.trace ++ [Ev.sent n] := rfl

/-- Full description of `cancelOngoingRequests`: both controller fields
are aborted when present and nulled, `hasDebugged` and the problem info
are cleared, and NO_SCREENSHOTS goes out exactly when a controller was
active and the window is alive. -/
theorem cancelOngoingRequests_spec (env : Env) (st : St) :
    (cancelOngoingRequests env st).cpac = none ∧
    (cancelOngoingRequests env st).cepac = none ∧
    (∀ sid, st.cpac = some sid → sid ∈ (cancelOngoingRequests env st).aborted) ∧
    (∀ sid, st.cepac = some sid → sid ∈ (cancelOngoingRequests env st).aborted) ∧
    (cancelOngoingRequests env st).hasDebugged = false ∧
    (cancelOngoingRequests env st).problemInfo = none ∧
    (cancelOngoingRequests env st).view = st.view ∧
    (cancelOngoingRequests env st).queueMain = st.queueMain ∧
    (cancelOngoingRequests env st).queueExtra = st.queueExtra ∧
    (cancelOngoingRequests env st).trace =
      st.trace ++ [Ev.storeProblemInfo none] ++
        (if (st.cpac.isSome || st.cepac.isSome) && windowAlive env then
          [Ev.sent EvName.NO_SCREENSHOTS] else []) := by
  unfold cancelOngoingRequests
  rcases h1 : st.cpac with _ | sid1 <;> rcases h2 : st.cepac with _ | sid2 <;>
    cases hw : windowAlive env <;>
      simp [setProblemInfo, emit, h1, h2, hw]

/-! ## Claim C3 -/

/-- C3: whenever `cancelOngoingRequests` is invoked, in every initial
state, both abort-controller fields are aborted if present and are null
afterwards, `hasDebugged` is set to false, the stored problem info is set
to null, and NO_SCREENSHOTS is sent to the main window if and only if at
least one abort controller was active and the window exists and is not
destroyed. -/
theorem claim_C3_cancel_ongoing_requests :
    ∀ (env : Env) (st : St),
      (cancelOngoingRequests env st).cpac = none ∧
      (cancelOngoingRequests env st).cepac = none ∧
      (∀ sid, st.cpac = some sid → sid ∈ (cancelOngoingRequests env st).aborted) ∧
      (∀ sid, st.cepac = some sid → sid ∈ (cancelOngoingRequests env st).aborted) ∧
      (cancelOngoingRequests env st).hasDebugged = false ∧
      (cancelOngoingRequests env st).problemInfo = none ∧
      (cancelOngoingRequests env st).trace =
        st.trace ++ [Ev.storeProblemInfo none] ++
          (if (st.cpac.isSome || st.cepac.isSome) && windowAlive env then
            [Ev.sent EvName.NO_SCREENSHOTS] else []) := by
  intro env st
  obtain ⟨h1, h2, h3, h4, h5, h6, _, _, _, h10⟩ := cancelOngoingRequests_spec env st
  exact ⟨h1, h2, h3, h4, h5, h6, h10⟩

/-! ## Claim C10 -/

/-- C10: the inline parser of the processing coordinator and the parser
of the store-based OpenAI service are extensionally equal: on every input
they return identical records (same code, thoughts, time_complexity and
space_complexity). -/
theorem claim_C10_parsers_equivalent :
    ∀ s : List Char,
      ProcessingHelper.parseSolution s = OpenAIServiceStore.parseSolution s :=
  fun _ => rfl

/-! ## Claim C7 -/

theorem lookupKey_setKey_self (k v : List Char)
    (cfg : List (List Char × List Char)) :
    lookupKey k (setKey k v cfg) = some v := by
  induction cfg with
  | nil => simp [setKey, lookupKey]
  | cons p rest ih =>
    obtain ⟨k1, v1⟩ := p
    by_cases h : k1 = k <;> simp [setKey, lookupKey, h, ih]

theorem lookupKey_setKey_other (k v k2 : List Char) (h : k2 ≠ k)
    (cfg : List (List Char × List Char)) :
    lookupKey k2 (setKey k v cfg) = lookupKey k2 cfg := by
  induction cfg with
  | nil => simp [setKey, lookupKey, Ne.symm h]
  | cons p rest ih =>
    obtain ⟨k1, v1⟩ := p
    by_cases h1 : k1 = k
    · subst h1
      simp [setKey, lookupKey, Ne.symm h]
    · by_cases h2 : k1 = k2 <;> simp [setKey, lookupKey, h1, h2, h, ih]

/-- C7: after a successful `store.set(k, v)`, `store.get(k)` answers `v`,
and every other key answers exactly what it answered before the set. -/
theorem claim_C7_store_set_get :
    ∀ (fs : StoreFS) (k v k2 : List Char), k2 ≠ k →
      (storeGet k (storeSet k v fs).2).1 = some v ∧
      (storeGet k2 (storeSet k v fs).2).1 = (storeGet k2 fs).1 := by
  intro fs k v k2 h
  rcases hf : fs.file with _ | cfg
  · constructor
    · simp [storeGet, storeSet, hf, lookupKey_setKey_self]
    · simp [storeGet, storeSet, hf, lookupKey, Ne.symm h]
  · constructor
    · simp [storeGet, storeSet, hf, lookupKey_setKey_self]
    · simp [storeGet, storeSet, hf, lookupKey_setKey_other k v k2 h]

/-- Witness for C7 at a concrete store and keys. -/
theorem claim_C7_witness :
    (storeGet "openai-api-key".toList
        (storeSet "openai-api-key".toList "sk-1".toList { file := none }).2).1 =
      some "sk-1".toList ∧
    (storeGet "openai-model".toList
        (storeSet "openai-api-key".toList "sk-1".toList { file := none }).2).1 =
      (storeGet "openai-model".toList { file := none }).1 :=
  claim_C7_store_set_get { file := none } "openai-api-key".toList "sk-1".toList
    "openai-model".toList (by decide)

/-! ## Claim C8 -/

/-- C8: in queue view with an empty screenshot queue, `processScreenshots`
sends INITIAL_START and NO_SCREENSHOTS and returns with everything else —
controllers, requests, problem info, view, both queues — untouched: the
final state differs from the initial one only by those two sent events. -/
theorem claim_C8_empty_queue :
    ∀ (env : Env) (st : St) (fuel : Nat) (w : Window),
      env.window = some w → st.view = View.queue → st.queueMain = [] →
      processScreenshots env fuel st =
        some { st with trace := st.trace ++
          [Ev.sent EvName.INITIAL_START, Ev.sent EvName.NO_SCREENSHOTS] } := by
  intro env st fuel w hw hv hq
  simp [processScreenshots, emit, hw, hv, hq]

/-- Shared initial state for concrete runs: queue view, empty everything. -/
def baseSt : St :=
  { view := View.queue, problemInfo := none, hasDebugged := false,
    queueMain := [], queueExtra := [], cpac := none, cepac := none,
    aborted := [], nextId := 0, trace := [], genResults := [] }

/-- Shared benign oracle: a live window, keys present, files readable. -/
def baseEnv : Env :=
  { window := some { destroyed := false }, apiKeyEnv := true,
    service := some { keyOk := true }, filesOk := true,
    readFile := fun p => p, extractResult := RR.ok "problem".toList,
    debugResult := RR.ok "debug-reply".toList }

/-- Witness for C8 on the concrete empty-queue state. -/
theorem claim_C8_witness :
    processScreenshots baseEnv 1 baseSt =
      some { baseSt with trace := baseSt.trace ++
        [Ev.sent EvName.INITIAL_START, Ev.sent EvName.NO_SCREENSHOTS] } :=
  claim_C8_empty_queue baseEnv baseSt 1 { destroyed := false } rfl rfl rfl

/-! ## Claim C6 -/

/-- C6: when the solution-generation call fails with a timeout (error
code "ECONNABORTED" or HTTP status 504), `generateSolutionsHelper`
cancels the ongoing requests (controllers aborted and nulled), clears
both screenshot queues, sets the view to queue, and returns a failed
result carrying the timeout message. -/
theorem claim_C6_timeout :
    ∀ (env : Env) (st : St) (e : JsError) (rest : List RR) (pi : List Char),
      env.apiKeyEnv = true →
      st.problemInfo = some pi →
      st.genResults = RR.err e :: rest →
      (e.code = some "ECONNABORTED".toList ∨ e.status = some 504) →
      (generateSolutionsHelper env st).1 =
        Res.failure "Request timed out. Please try again.".toList ∧
      (generateSolutionsHelper env st).2.queueMain = [] ∧
      (generateSolutionsHelper env st).2.queueExtra = [] ∧
      (generateSolutionsHelper env st).2.view = View.queue ∧
      (generateSolutionsHelper env st).2.cpac = none ∧
      (generateSolutionsHelper env st).2.cepac = none ∧
      (∀ sid, st.cpac = some sid → sid ∈ (generateSolutionsHelper env st).2.aborted) ∧
      (∀ sid, st.cepac = some sid → sid ∈ (generateSolutionsHelper env st).2.aborted) := by
  intro env st e rest pi hkey hpi hgen htimeout
  have hcond : (e.code == some "ECONNABORTED".toList || e.status == some 504) = true := by
    rcases htimeout with h | h <;> simp [h]
  unfold generateSolutionsHelper
  rw [hkey, hpi, hgen]
  simp only [Bool.not_true, Bool.false_eq_true, if_false, List.headD, List.tail]
  unfold genCatch
  rw [hcond]
  simp only [if_true]
  set stc := cancelOngoingRequests env { st with
    genResults := rest, trace := st.trace ++ [Ev.request ReqKind.generateSolution [pi]] } with hstc
  obtain ⟨hc1, hc2, hc3, hc4, _, _, _, _, _, _⟩ :=
    cancelOngoingRequests_spec env { st with
      genResults := rest, trace := st.trace ++ [Ev.request ReqKind.generateSolution [pi]] }
  cases hwa : windowAlive env <;>
    simp_all [clearQueues, emit, recordReq]

/-- A concrete timeout error (code ECONNABORTED). -/
def e6 : JsError :=
  { message := "timeout of 300000ms exceeded".toList,
    code := some "ECONNABORTED".toList }

/-- Concrete state for the C6 witness: problem info stored, one pending
solution-generation outcome that fails with `e6`, an active controller. -/
def c6St : St :=
  { view := View.solutions, problemInfo := some "p".toList,
    hasDebugged := false, queueMain := ["a".toList], queueExtra := ["b".toList],
    cpac := some 0, cepac := none, aborted := [], nextId := 1, trace := [],
    genResults := [RR.err e6] }

/-- Witness for C6 on the concrete timeout run. -/
theorem claim_C6_witness :
    (generateSolutionsHelper baseEnv c6St).1 =
      Res.failure "Request timed out. Please try again.".toList ∧
    (generateSolutionsHelper baseEnv c6St).2.queueMain = [] ∧
    (generateSolutionsHelper baseEnv c6St).2.queueExtra = [] ∧
    (generateSolutionsHelper baseEnv c6St).2.view = View.queue ∧
    (generateSolutionsHelper baseEnv c6St).2.cpac = none ∧
    (generateSolutionsHelper baseEnv c6St).2.cepac = none ∧
    (∀ sid, c6St.cpac = some sid → sid ∈ (generateSolutionsHelper baseEnv c6St).2.aborted) ∧
    (∀ sid, c6St.cepac = some sid → sid ∈ (generateSolutionsHelper baseEnv c6St).2.aborted) :=
  claim_C6_timeout baseEnv c6St e6 [] "p".toList rfl rfl rfl (Or.inl (by decide))

/-! ## Claim C2 -/

/-- How many requests of a given kind a trace holds. -/
def countReq (k : ReqKind) : List Ev → Nat
  | [] => 0
  | Ev.request k1 _ :: rest => (if k1 = k then 1 else 0) + countReq k rest
  | _ :: rest => countReq k rest

theorem countReq_append (k : ReqKind) (a b : List Ev) :
    countReq k (a ++ b) = countReq k a + countReq k b := by
  induction a with
  | nil => simp [countReq]
  | cons e rest ih => cases e <;> simp [countReq, ih] <;> omega

theorem countReq_emit (k : ReqKind) (st : St) (n : EvName) :
    countReq k (emit st n).trace = countReq k st.trace := by
  simp [emit, countReq_append, countReq]

theorem countReq_setProblemInfo (k : ReqKind) (st : St) (v : Option (List Char)) :
    countReq k (setProblemInfo st v).trace = countReq k st.trace := by
  simp [setProblemInfo, countReq_append, countReq]

theorem countReq_recordReq (k k1 : ReqKind) (st : St) (p : List (List Char)) :
    countReq k (recordReq st k1 p).trace =
      countReq k st.trace + (if k1 = k then 1 else 0) := by
  simp [recordReq, countReq_append, countReq]

theorem countReq_cancel (k : ReqKind) (env : Env) (st : St) :
    countReq k (cancelOngoingRequests env st).trace = countReq k st.trace := by
  obtain ⟨_, _, _, _, _, _, _, _, _, h⟩ := cancelOngoingRequests_spec env st
  rw [h]
  cases hc : (st.cpac.isSome || st.cepac.isSome) && windowAlive env <;>
    simp [countReq_append, countReq]

theorem countReq_genCatch (k : ReqKind) (env : Env) (st : St) (e : JsError) :
    countReq k (genCatch env st e).2.trace = countReq k st.trace := by
  unfold genCatch
  split
  · cases hw : windowAlive env <;>
      simp [hw, clearQueues, emit, countReq_append, countReq, countReq_cancel]
  · split
    · cases hwin : env.window.isSome <;>
        simp [hwin, emit, countReq_append, countReq]
    · split
      · cases hwin : env.window.isSome <;>
          simp [hwin, emit, countReq_append, countReq]
      · simp

/-- `generateSolutionsHelper` makes no extraction request. -/
theorem countReq_gen_extract (env : Env) (st : St) :
    countReq ReqKind.extractProblem (generateSolutionsHelper env st).2.trace =
      countReq ReqKind.extractProblem st.trace := by
  unfold generateSolutionsHelper
  cases hk : env.apiKeyEnv <;> cases hpi : st.problemInfo <;>
    simp [countReq_genCatch, countReq_recordReq, recordReq]
  rcases hg : st.genResults with _ | ⟨r0, rtail⟩
  · simp [hg, countReq_genCatch, countReq_append, countReq]
  · cases r0 <;> simp [hg, countReq_genCatch, countReq_append, countReq]

/-- `generateSolutionsHelper` makes at most one solution-generation
request. -/
theorem countReq_gen_gen (env : Env) (st : St) :
    countReq ReqKind.generateSolution (generateSolutionsHelper env st).2.trace ≤
      countReq ReqKind.generateSolution st.trace + 1 := by
  unfold generateSolutionsHelper
  cases hk : env.apiKeyEnv <;> cases hpi : st.problemInfo <;>
    simp [countReq_genCatch, countReq_recordReq, recordReq]
  rcases hg : st.genResults with _ | ⟨r0, rtail⟩
  · simp [hg, countReq_genCatch, countReq_append, countReq]
  · cases r0 <;> simp [hg, countReq_genCatch, countReq_append, countReq]

/-- C2 (counterexample to the claim as stated): the retry counts are not
all zero — the OpenAI client that `processScreenshotsHelper` constructs
for its requests is configured with `maxRetries: 3`, so a failed HTTP
request may be re-attempted below the helper. -/
theorem claim_C2_counterexample :
    helperClientCfg.maxRetries = 3 ∧ genClientCfg.maxRetries = 3 ∧
      helperClientCfg.maxRetries ≠ MAX_RETRIES :=
  ⟨rfl, rfl, by decide⟩

/-- C2 (amended): the helper's own retry bound is zero and, with a window
present, its loop body runs exactly once — the result is the same for
every fuel — making at most one extraction and at most one
solution-generation request, and on failure returning `{ success: false,
error }` at once; the OpenAI clients it builds are nevertheless
configured with `maxRetries = 3`. -/
theorem claim_C2_amended :
    ∀ (env : Env) (images : List (List Char)) (st : St) (f1 f2 : Nat) (w : Window),
      env.window = some w →
      processScreenshotsHelper env images (f1 + 1) st =
        processScreenshotsHelper env images (f2 + 1) st ∧
      ∃ r st2, processScreenshotsHelper env images (f1 + 1) st = some (r, st2) ∧
        countReq ReqKind.extractProblem st2.trace ≤
          countReq ReqKind.extractProblem st.trace + 1 ∧
        countReq ReqKind.generateSolution st2.trace ≤
          countReq ReqKind.generateSolution st.trace + 1 ∧
        MAX_RETRIES = 0 ∧ helperClientCfg.maxRetries = 3 := by
  intro env images st f1 f2 w hw
  constructor
  · unfold processScreenshotsHelper processScreenshotsHelperLoop
    cases hk : env.apiKeyEnv
    · simp
    · cases hex : env.extractResult <;> simp [hw]
  · unfold processScreenshotsHelper processScreenshotsHelperLoop
    cases hk : env.apiKeyEnv
    · simp only [Bool.not_false, if_true]
      exact ⟨_, st, rfl, Nat.le_add_right _ _, Nat.le_add_right _ _, rfl, rfl⟩
    · simp only [Bool.not_true, Bool.false_eq_true, if_false]
      cases hex : env.extractResult with
      | err e =>
        refine ⟨_, _, rfl, ?_, ?_, rfl, rfl⟩ <;> simp [countReq_recordReq]
      | ok content =>
        rw [hw]
        dsimp only
        set st3 := emit (setProblemInfo (recordReq st ReqKind.extractProblem images)
          (some content)) EvName.PROBLEM_EXTRACTED with hst3
        have hex3 : countReq ReqKind.extractProblem st3.trace =
            countReq ReqKind.extractProblem st.trace + 1 := by
          simp [hst3, countReq_emit, countReq_setProblemInfo, countReq_recordReq]
        have hgen3 : countReq ReqKind.generateSolution st3.trace =
            countReq ReqKind.generateSolution st.trace := by
          simp [hst3, countReq_emit, countReq_setProblemInfo, countReq_recordReq]
        have hex4 := countReq_gen_extract env st3
        have hgen4 := countReq_gen_gen env st3
        cases hr : (generateSolutionsHelper env st3).1 with
        | success data =>
          refine ⟨_, _, rfl, ?_, ?_, rfl, rfl⟩
          · simp only [emit, countReq_append, countReq]
            omega
          · simp only [emit, countReq_append, countReq]
            omega
        | failure msg =>
          refine ⟨_, _, rfl, ?_, ?_, rfl, rfl⟩
          · omega
          · omega

/-- Witness for C2 (amended) at a concrete environment and state. -/
theorem claim_C2_witness :
    processScreenshotsHelper baseEnv [] (0 + 1) baseSt =
        processScreenshotsHelper baseEnv [] (0 + 1) baseSt ∧
    ∃ r st2, processScreenshotsHelper baseEnv [] (0 + 1) baseSt = some (r, st2) ∧
      countReq ReqKind.extractProblem st2.trace ≤
        countReq ReqKind.extractProblem baseSt.trace + 1 ∧
      countReq ReqKind.generateSolution st2.trace ≤
        countReq ReqKind.generateSolution baseSt.trace + 1 ∧
      MAX_RETRIES = 0 ∧ helperClientCfg.maxRetries = 3 :=
  claim_C2_amended baseEnv [] baseSt 0 0 { destroyed := false } rfl

/-! ## Claim C1 -/

/-- Concrete state for the C1 counterexample: queue view, one screenshot,
both solution-generation outcomes succeed. -/
def c1St : St :=
  { view := View.queue, problemInfo := none, hasDebugged := false,
    queueMain := ["shot".toList], queueExtra := [], cpac := none,
    cepac := none, aborted := [], nextId := 0, trace := [],
    genResults := [RR.ok "sol-1".toList, RR.ok "sol-2".toList] }

/-- C1 (counterexample to the claim as stated): on a fully successful
queue-view run the coordinator issues TWO solution-generation requests,
not exactly one — `processScreenshotsHelper` makes one after storing the
problem info, and `processScreenshots` line 130 then awaits
`generateSolutionsHelper` a second time. -/
theorem claim_C1_counterexample :
    (processScreenshots baseEnv 1 c1St).map
        (fun s2 => countReq ReqKind.generateSolution s2.trace) = some 2 ∧
      (2 : Nat) ≠ 1 := by
  constructor
  · rfl
  · decide

/-- C1 (amended): on every successful queue-view run the coordinator
makes exactly one problem-extraction request, stores its result as the
problem info, and then makes exactly two solution-generation requests —
one inside `processScreenshotsHelper` and a second one issued directly by
`processScreenshots` — both of them after the store. -/
theorem claim_C1_amended :
    ∀ (env : Env) (st : St) (fuel : Nat) (w : Window) (s : Service)
      (c g1 g2 : List Char) (rest : List RR),
      env.window = some w → st.view = View.queue → st.queueMain.isEmpty = false →
      env.service = some s → s.keyOk = true → env.apiKeyEnv = true →
      env.filesOk = true → env.extractResult = RR.ok c →
      st.genResults = RR.ok g1 :: RR.ok g2 :: rest →
      (processScreenshots env (fuel + 1) st).map (fun s2 => s2.trace) =
        some (st.trace ++
          [Ev.sent EvName.INITIAL_START,
           Ev.request ReqKind.extractProblem (st.queueMain.map env.readFile),
           Ev.storeProblemInfo (some c),
           Ev.sent EvName.PROBLEM_EXTRACTED,
           Ev.request ReqKind.generateSolution [c],
           Ev.sent EvName.SOLUTION_SUCCESS,
           Ev.request ReqKind.generateSolution [c],
           Ev.sent EvName.SOLUTION_SUCCESS]) ∧
      (processScreenshots env (fuel + 1) st).map
          (fun s2 => countReq ReqKind.extractProblem s2.trace) =
        some (countReq ReqKind.extractProblem st.trace + 1) ∧
      (processScreenshots env (fuel + 1) st).map
          (fun s2 => countReq ReqKind.generateSolution s2.trace) =
        some (countReq ReqKind.generateSolution st.trace + 2) := by
  intro env st fuel w s c g1 g2 rest hw hv hqm hs hkeyok hk hf hex hg
  unfold processScreenshots processScreenshotsHelper processScreenshotsHelperLoop
    generateSolutionsHelper
  rw [hw, hv]
  simp [emit, recordReq, setProblemInfo, hqm, hs, hkeyok, hk, hf, hex, hg,
    countReq_append, countReq]

/-- Witness for C1 (amended) on the concrete successful run. -/
theorem claim_C1_witness :
    (processScreenshots baseEnv (0 + 1) c1St).map (fun s2 => s2.trace) =
      some (c1St.trace ++
        [Ev.sent EvName.INITIAL_START,
         Ev.request ReqKind.extractProblem (c1St.queueMain.map baseEnv.readFile),
         Ev.storeProblemInfo (some "problem".toList),
         Ev.sent EvName.PROBLEM_EXTRACTED,
         Ev.request ReqKind.generateSolution ["problem".toList],
         Ev.sent EvName.SOLUTION_SUCCESS,
         Ev.request ReqKind.generateSolution ["problem".toList],
         Ev.sent EvName.SOLUTION_SUCCESS]) ∧
    (processScreenshots baseEnv (0 + 1) c1St).map
        (fun s2 => countReq ReqKind.extractProblem s2.trace) =
      some (countReq ReqKind.extractProblem c1St.trace + 1) ∧
    (processScreenshots baseEnv (0 + 1) c1St).map
        (fun s2 => countReq ReqKind.generateSolution s2.trace) =
      some (countReq ReqKind.generateSolution c1St.trace + 2) :=
  claim_C1_amended baseEnv c1St 0 { destroyed := false } { keyOk := true }
    "problem".toList "sol-1".toList "sol-2".toList [] rfl rfl rfl rfl rfl rfl rfl rfl rfl

/-! ## Claim C9 -/

/-- The state with its view flag replaced. -/
def setView (v : View) (st : St) : St := { st with view := v }

/-- The state with the view flag erased (fixed to queue): two states agree
under `stripView` exactly when they agree on everything except the view
flag. -/
def stripView (st : St) : St := { st with view := View.queue }

theorem stripView_setView (v : View) (st : St) :
    stripView (setView v st) = stripView st := rfl

theorem emit_setView (v : View) (st : St) (n : EvName) :
    emit (setView v st) n = setView v (emit st n) := rfl

theorem recordReq_setView (v : View) (st : St) (k : ReqKind) (p : List (List Char)) :
    recordReq (setView v st) k p = setView v (recordReq st k p) := rfl

theorem setProblemInfo_setView (v : View) (st : St) (pv : Option (List Char)) :
    setProblemInfo (setView v st) pv = setView v (setProblemInfo st pv) := rfl

theorem clearQueues_setView (v : View) (st : St) :
    clearQueues (setView v st) = setView v (clearQueues st) := rfl

theorem cancel_setView (env : Env) (v : View) (st : St) :
    cancelOngoingRequests env (setView v st) =
      setView v (cancelOngoingRequests env st) := by
  unfold cancelOngoingRequests
  rcases h1 : st.cpac with _ | s1 <;> rcases h2 : st.cepac with _ | s2 <;>
    cases hw : windowAlive env <;>
      simp [setView, setProblemInfo, emit, h1, h2, hw]

/-- Setting the view to queue is exactly `stripView`. -/
theorem updateView_queue (st : St) :
    ({ st with view := View.queue } : St) = stripView st := rfl

theorem setView_problemInfo (v : View) (st : St) :
    (setView v st).problemInfo = st.problemInfo := rfl

/-- `processExtraScreenshotsHelper` never reads the view flag: its result
and its state effect (up to the view flag it may overwrite) are the same
whatever view it starts from. -/
theorem extraHelper_setView (env : Env) (images : List (List Char))
    (v : View) (st : St) :
    (processExtraScreenshotsHelper env images (setView v st)).1 =
        (processExtraScreenshotsHelper env images st).1 ∧
      stripView (processExtraScreenshotsHelper env images (setView v st)).2 =
        stripView (processExtraScreenshotsHelper env images st).2 := by
  unfold processExtraScreenshotsHelper
  simp only [setView_problemInfo]
  cases hpi : st.problemInfo with
  | none => exact ⟨rfl, stripView_setView v st⟩
  | some pi =>
    cases hdr : env.debugResult with
    | ok d => exact ⟨by trivial, by simp [recordReq_setView, stripView_setView]⟩
    | err e =>
      cases hc : e.isCancel
      · simp only [hc, Bool.false_eq_true, if_false]
        split
        · constructor
          · trivial
          · cases hw : windowAlive env <;>
              simp [hw, recordReq_setView, cancel_setView, clearQueues_setView,
                emit_setView, updateView_queue, stripView_setView]
        · split
          · cases hwin : env.window.isSome <;>
              simp [hwin, recordReq_setView, emit_setView, stripView_setView]
          · split
            · cases hwin : env.window.isSome <;>
                simp [hwin, recordReq_setView, emit_setView, stripView_setView]
            · exact ⟨by trivial, by simp [recordReq_setView, stripView_setView]⟩
      · simp only [hc, if_true]
        exact ⟨by trivial, by simp [recordReq_setView, stripView_setView]⟩

theorem setView_queueExtra (v : View) (st : St) :
    (setView v st).queueExtra = st.queueExtra := rfl

theorem setView_queueMain (v : View) (st : St) :
    (setView v st).queueMain = st.queueMain := rfl

theorem ctrlUpdate_setView (v : View) (x : St) :
    ({ setView v x with
        cepac := some (setView v x).nextId,
        nextId := (setView v x).nextId + 1 } : St) =
      setView v
        { x with
          cepac := some x.nextId,
          nextId := x.nextId + 1 } := rfl

theorem cepacNone_setView (v : View) (x : St) :
    ({ setView v x with cepac := none } : St) =
      setView v { x with cepac := none } := rfl

/-- Two states with the same `stripView` agree on every field but the
view. -/
theorem stripView_parts (a b : St) (h : stripView a = stripView b) :
    a.problemInfo = b.problemInfo ∧ a.hasDebugged = b.hasDebugged ∧
    a.queueMain = b.queueMain ∧ a.queueExtra = b.queueExtra ∧
    a.cpac = b.cpac ∧ a.cepac = b.cepac ∧ a.aborted = b.aborted ∧
    a.nextId = b.nextId ∧ a.trace = b.trace ∧ a.genResults = b.genResults := by
  obtain ⟨va, pa, da, qa, ea, ca, cea, aa, na, ta, ga⟩ := a
  obtain ⟨vb, pb, db, qb, eb, cb, ceb, ab2, nb, tb, gb⟩ := b
  simp only [stripView, St.mk.injEq] at h
  simp_all

/-- `finishExtra` handles every starting view identically up to the view
flag it carries. -/
theorem finishExtra_setView (env : Env) (v : View) (R : St) :
    stripView (finishExtra env (setView v R)) = stripView (finishExtra env R) := by
  unfold finishExtra
  simp only [setView_queueMain, setView_queueExtra]
  cases hfo : env.filesOk
  · simp [emit_setView, cepacNone_setView, stripView_setView]
  · simp only [Bool.not_true, Bool.false_eq_true, if_false, List.map_append]
    rw [(extraHelper_setView env
      (List.map env.readFile R.queueMain ++ List.map env.readFile R.queueExtra) v R).1]
    have hobs := (extraHelper_setView env
      (List.map env.readFile R.queueMain ++ List.map env.readFile R.queueExtra) v R).2
    obtain ⟨hp1, hp2, hp3, hp4, hp5, hp6, hp7, hp8, hp9, hp10⟩ :=
      stripView_parts _ _ hobs
    split <;>
      simp [stripView, emit, hp1, hp2, hp3, hp4, hp5, hp6, hp7, hp8, hp9, hp10]

/-- The extra-processing branch handles every starting view identically:
up to the view flag it carries, its effect does not depend on the view. -/
theorem processExtraBranch_setView (env : Env) (v : View) (st : St) :
    stripView (processExtraBranch env (setView v st)) =
      stripView (processExtraBranch env st) := by
  unfold processExtraBranch
  simp only [setView_queueExtra]
  cases hqe : st.queueExtra.isEmpty
  · simp only [Bool.false_eq_true, if_false, emit_setView, ctrlUpdate_setView]
    exact finishExtra_setView env v _
  · simp [emit_setView, stripView_setView]

theorem setView_view (v : View) (st : St) : (setView v st).view = v := rfl

/-- Concrete state for the C9 counterexample: solutions view, a nonempty
main queue, an empty extra queue. -/
def c9St : St :=
  { view := View.solutions, problemInfo := some "p".toList,
    hasDebugged := false, queueMain := ["shot".toList], queueExtra := [],
    cpac := none, cepac := none, aborted := [], nextId := 0, trace := [],
    genResults := [] }

/-- C9 (counterexample to the claim as stated): in solutions view with a
nonempty main queue but an empty extra queue, the concatenation of the
queues is nonempty, yet `processScreenshots` emits only NO_SCREENSHOTS —
no DEBUG_START and no debug request at all. -/
theorem claim_C9_counterexample :
    (processScreenshots baseEnv 1 c9St).map (fun s2 => s2.trace) =
        some [Ev.sent EvName.NO_SCREENSHOTS] ∧
      c9St.queueMain ++ c9St.queueExtra ≠ [] ∧ c9St.view ≠ View.queue ∧
      (processScreenshots baseEnv 1 c9St).map
          (fun s2 => countReq ReqKind.debugCall s2.trace) = some 0 := by
  refine ⟨rfl, by decide, by decide, rfl⟩

/-- C9 (amended): for every view other than queue, `processScreenshots`
takes the extra-processing branch: with an empty extra queue it only
sends NO_SCREENSHOTS; otherwise (files readable, problem info stored) it
emits DEBUG_START, posts the concatenation of the two queues, and ends
with DEBUG_SUCCESS — setting hasDebugged — exactly when the request
succeeds, DEBUG_ERROR otherwise (never newly setting hasDebugged); and
every non-queue view, debug included, is handled identically to the
solutions view up to the stored view flag. -/
theorem claim_C9_extra_branch :
    ∀ (env : Env) (st : St) (fuel : Nat) (w : Window),
      env.window = some w → st.view ≠ View.queue →
      (st.queueExtra.isEmpty = true →
        processScreenshots env fuel st = some (emit st EvName.NO_SCREENSHOTS)) ∧
      (st.queueExtra.isEmpty = false → env.filesOk = true →
        ∀ pi, st.problemInfo = some pi →
        ∃ st2 mid last, processScreenshots env fuel st = some st2 ∧
          st2.trace = st.trace ++ [Ev.sent EvName.DEBUG_START,
              Ev.request ReqKind.debugCall
                ((st.queueMain ++ st.queueExtra).map env.readFile)]
            ++ mid ++ [Ev.sent last] ∧
          (∀ d, env.debugResult = RR.ok d →
            last = EvName.DEBUG_SUCCESS ∧ st2.hasDebugged = true) ∧
          (∀ e, env.debugResult = RR.err e →
            last = EvName.DEBUG_ERROR ∧
              (st2.hasDebugged = true → st.hasDebugged = true))) ∧
      (∀ v1 v2, v1 ≠ View.queue → v2 ≠ View.queue →
        (processScreenshots env fuel (setView v1 st)).map stripView =
          (processScreenshots env fuel (setView v2 st)).map stripView) := by
  intro env st fuel w hw hv
  refine ⟨?_, ?_, ?_⟩
  · intro hqe
    unfold processScreenshots processExtraBranch
    rw [hw]
    simp [hv, hqe]
  · intro hqe hfo pi hpi
    have hrun : processScreenshots env fuel st =
        some (finishExtra env
          { emit st EvName.DEBUG_START with
            cepac := some (emit st EvName.DEBUG_START).nextId,
            nextId := (emit st EvName.DEBUG_START).nextId + 1 }) := by
      unfold processScreenshots processExtraBranch
      rw [hw]
      simp [hv, hqe]
    rw [hrun]
    unfold finishExtra processExtraScreenshotsHelper
    simp only [hfo, Bool.not_true, Bool.false_eq_true, if_false]
    rw [show ({ emit st EvName.DEBUG_START with
        cepac := some (emit st EvName.DEBUG_START).nextId,
        nextId := (emit st EvName.DEBUG_START).nextId + 1 } : St).problemInfo =
      some pi from hpi]
    cases hdr : env.debugResult with
    | ok d =>
      refine ⟨_, [], EvName.DEBUG_SUCCESS, rfl, ?_, ?_, ?_⟩
      · simp [emit, recordReq]
      · intro d2 _
        exact ⟨rfl, by simp [emit]⟩
      · intro e he
        simp [hdr] at he
    | err e =>
      cases hcan : e.isCancel
      · simp only [hcan, Bool.false_eq_true, if_false]
        by_cases hto : (Option.map (includesStr "Operation timed out".toList)
            e.dataError).getD false = true
        · rw [if_pos hto]
          obtain ⟨_, _, _, _, hhd, _, _, _, _, hct⟩ :=
            cancelOngoingRequests_spec env
              { view := st.view, problemInfo := some pi,
                hasDebugged := st.hasDebugged, queueMain := st.queueMain,
                queueExtra := st.queueExtra, cpac := st.cpac,
                cepac := some st.nextId, aborted := st.aborted,
                nextId := st.nextId + 1,
                trace := st.trace ++ [Ev.sent EvName.DEBUG_START,
                  Ev.request ReqKind.debugCall
                    (List.map env.readFile st.queueMain ++
                      List.map env.readFile st.queueExtra)],
                genResults := st.genResults }
          cases hal : windowAlive env <;>
            refine ⟨_, [Ev.storeProblemInfo none] ++
                (if windowAlive env then [Ev.sent EvName.NO_SCREENSHOTS] else []) ++
                (if windowAlive env then
                  [Ev.sent EvName.RESET_VIEW, Ev.sent EvName.DEBUG_ERROR] else []),
              EvName.DEBUG_ERROR, rfl, ?_, ?_, ?_⟩ <;>
              simp_all [emit, recordReq, clearQueues]
        · rw [if_neg hto]
          by_cases hcr : (Option.map (includesStr "API Key out of credits".toList)
              e.dataError).getD false = true
          · rw [if_pos hcr]
            cases hwin : env.window.isSome <;>
              refine ⟨_, (if env.window.isSome then
                  [Ev.sent EvName.OUT_OF_CREDITS] else []),
                EvName.DEBUG_ERROR, rfl, ?_, ?_, ?_⟩ <;>
                simp_all [emit, recordReq]
          · rw [if_neg hcr]
            by_cases hiv : (Option.map (includesStr
                "Please close this window and re-enter a valid Open AI API key.".toList)
                e.dataError).getD false = true
            · rw [if_pos hiv]
              cases hwin : env.window.isSome <;>
                refine ⟨_, (if env.window.isSome then
                    [Ev.sent EvName.API_KEY_INVALID] else []),
                  EvName.DEBUG_ERROR, rfl, ?_, ?_, ?_⟩ <;>
                  simp_all [emit, recordReq]
            · rw [if_neg hiv]
              refine ⟨_, [], EvName.DEBUG_ERROR, rfl, ?_, ?_, ?_⟩ <;>
                simp_all [emit, recordReq]
      · simp only [hcan, if_true]
        refine ⟨_, [], EvName.DEBUG_ERROR, rfl, ?_, ?_, ?_⟩ <;>
          simp_all [emit, recordReq]
  · intro v1 v2 hv1 hv2
    unfold processScreenshots
    rw [hw]
    simp only [setView_view, hv1, hv2, if_false]
    simp [processExtraBranch_setView]

/-- Concrete state for the C9 witness: debug view, both queues nonempty,
problem info stored. -/
def c9WSt : St :=
  { view := View.debug, problemInfo := some "p".toList, hasDebugged := false,
    queueMain := ["a".toList], queueExtra := ["b".toList], cpac := none,
    cepac := none, aborted := [], nextId := 0, trace := [], genResults := [] }

/-- Witness for C9 (amended) on the concrete debug-view state. -/
theorem claim_C9_witness :
    (c9WSt.queueExtra.isEmpty = true →
      processScreenshots baseEnv 1 c9WSt =
        some (emit c9WSt EvName.NO_SCREENSHOTS)) ∧
    (c9WSt.queueExtra.isEmpty = false → baseEnv.filesOk = true →
      ∀ pi, c9WSt.problemInfo = some pi →
      ∃ st2 mid last, processScreenshots baseEnv 1 c9WSt = some st2 ∧
        st2.trace = c9WSt.trace ++ [Ev.sent EvName.DEBUG_START,
            Ev.request ReqKind.debugCall
              ((c9WSt.queueMain ++ c9WSt.queueExtra).map baseEnv.readFile)]
          ++ mid ++ [Ev.sent last] ∧
        (∀ d, baseEnv.debugResult = RR.ok d →
          last = EvName.DEBUG_SUCCESS ∧ st2.hasDebugged = true) ∧
        (∀ e, baseEnv.debugResult = RR.err e →
          last = EvName.DEBUG_ERROR ∧
            (st2.hasDebugged = true → c9WSt.hasDebugged = true))) ∧
    (∀ v1 v2, v1 ≠ View.queue → v2 ≠ View.queue →
      (processScreenshots baseEnv 1 (setView v1 c9WSt)).map stripView =
        (processScreenshots baseEnv 1 (setView v2 c9WSt)).map stripView) :=
  claim_C9_extra_branch baseEnv c9WSt 1 { destroyed := false } rfl (by decide)

/-! ## Claim C4 -/

theorem tks_eq : tks = ['\x60', '\x60', '\x60'] := rfl

theorem hasPref_iff (p : List Char) : ∀ l, hasPref p l = true ↔ ∃ t, l = p ++ t := by
  induction p with
  | nil => intro l; simp [hasPref]
  | cons x ps ih =>
    intro l
    cases l with
    | nil => simp [hasPref]
    | cons c cs =>
      rw [hasPref]
      simp only [Bool.and_eq_true, beq_iff_eq, ih]
      constructor
      · rintro ⟨hx, t, ht⟩
        exact ⟨t, by simp [hx, ht]⟩
      · rintro ⟨t, ht⟩
        simp only [List.cons_append, List.cons.injEq] at ht
        exact ⟨ht.1.symm, t, ht.2⟩

theorem afterNewline_some (l : List Char) : ∀ r, afterNewline l = some r →
    ∃ g, l = g ++ '\n' :: r ∧ ∀ c ∈ g, isLineTerminator c = false := by
  induction l with
  | nil => intro r h; simp [afterNewline] at h
  | cons c cs ih =>
    intro r h
    by_cases hc : (c == '\n') = true
    · rw [afterNewline, if_pos hc] at h
      injection h with hr
      rw [beq_iff_eq] at hc
      subst hc
      exact ⟨[], by simp [hr], by simp⟩
    · rw [afterNewline, if_neg hc] at h
      by_cases hl : isLineTerminator c = true
      · rw [if_pos hl] at h; cases h
      · rw [if_neg hl] at h
        obtain ⟨g, hg, hgn⟩ := ih r h
        refine ⟨c :: g, by simp [hg], ?_⟩
        intro x hx
        rcases List.mem_cons.1 hx with rfl | hx2
        · simpa using hl
        · exact hgn x hx2

theorem afterNewline_complete (r : List Char) :
    ∀ g, (∀ c ∈ g, isLineTerminator c = false) →
      afterNewline (g ++ '\n' :: r) = some r := by
  intro g
  induction g with
  | nil => intro _; simp [afterNewline]
  | cons c cs ih =>
    intro hg
    have hcl : isLineTerminator c = false := hg c (by simp)
    have hc : ¬(c == '\n') = true := by
      simp only [beq_iff_eq]
      intro he
      subst he
      exact absurd hcl (by decide)
    rw [List.cons_append, afterNewline, if_neg hc, if_neg (by simp [hcl])]
    exact ih (fun x hx => hg x (by simp [hx]))

/-- A line-terminator-free list does not contain the LF character. -/
theorem noLT_not_mem_nl (g : List Char)
    (h : ∀ c ∈ g, isLineTerminator c = false) : '\n' ∉ g :=
  fun hm => absurd (h _ hm) (by decide)

theorem newline_split_unique : ∀ (g g2 r r2 : List Char),
    g ++ '\n' :: r = g2 ++ '\n' :: r2 → '\n' ∉ g → '\n' ∉ g2 →
      g = g2 ∧ r = r2 := by
  intro g
  induction g with
  | nil =>
    intro g2 r r2 heq _ hn2
    cases g2 with
    | nil => simpa using heq
    | cons c2 cs2 =>
      simp only [List.nil_append, List.cons_append, List.cons.injEq] at heq
      exact absurd (List.mem_cons.2 (Or.inl heq.1)) hn2
  | cons c cs ih =>
    intro g2 r r2 heq hn hn2
    cases g2 with
    | nil =>
      simp only [List.nil_append, List.cons_append, List.cons.injEq] at heq
      exact absurd (List.mem_cons.2 (Or.inl heq.1.symm)) hn
    | cons c2 cs2 =>
      simp only [List.cons_append, List.cons.injEq] at heq
      obtain ⟨h1, h2⟩ := ih cs2 r r2 heq.2 (fun m => hn (by simp [m]))
        (fun m => hn2 (by simp [m]))
      exact ⟨by simp [heq.1, h1], h2⟩

theorem bodyToFence_some (l : List Char) : ∀ b, bodyToFence l = some b →
    (∃ t, l = b ++ tks ++ t) ∧
      ∀ b2 t2, l = b2 ++ tks ++ t2 → b.length ≤ b2.length := by
  induction l with
  | nil => intro b h; simp [bodyToFence] at h
  | cons c cs ih =>
    intro b h
    by_cases hf : hasPref tks (c :: cs) = true
    · rw [bodyToFence, if_pos hf] at h
      obtain ⟨t, ht⟩ := (hasPref_iff tks (c :: cs)).1 hf
      injection h with hb
      subst hb
      exact ⟨⟨t, by simpa using ht⟩, fun b2 t2 _ => Nat.zero_le _⟩
    · rw [bodyToFence, if_neg hf] at h
      cases hbt : bodyToFence cs with
      | none => rw [hbt] at h; cases h
      | some b0 =>
        rw [hbt] at h
        injection h with hb
        subst hb
        obtain ⟨⟨t, ht⟩, hmin⟩ := ih b0 hbt
        constructor
        · exact ⟨t, by simp [ht]⟩
        · intro b2 t2 heq
          cases b2 with
          | nil =>
            exact absurd ((hasPref_iff tks (c :: cs)).2 ⟨t2, by simpa using heq⟩) hf
          | cons c2 b2t =>
            simp only [List.cons_append, List.append_assoc, List.cons.injEq] at heq
            have := hmin b2t t2 (by simpa [List.append_assoc] using heq.2)
            simpa using Nat.succ_le_succ this

theorem bodyToFence_none (l : List Char) (h : bodyToFence l = none) :
    ∀ b t, l ≠ b ++ tks ++ t := by
  induction l with
  | nil =>
    intro b t heq
    cases b <;> simp [tks_eq] at heq
  | cons c cs ih =>
    rw [bodyToFence] at h
    by_cases hf : hasPref tks (c :: cs) = true
    · rw [if_pos hf] at h; cases h
    · rw [if_neg hf] at h
      have hcs : bodyToFence cs = none := by
        cases hbt : bodyToFence cs with
        | none => rfl
        | some b0 => rw [hbt] at h; cases h
      intro b t heq
      cases b with
      | nil => exact hf ((hasPref_iff tks (c :: cs)).2 ⟨t, by simpa using heq⟩)
      | cons c2 bt =>
        simp only [List.cons_append, List.append_assoc, List.cons.injEq] at heq
        exact ih hcs bt t (by simpa [List.append_assoc] using heq.2)

/-- The code-block pattern matching at the head of `l`: a fence, a header
free of line terminators (the JS dot matches none of LF, CR, LS, PS), an
LF, the body, a closing fence. -/
def HeadBlock (l body : List Char) : Prop :=
  ∃ hdr rest, l = tks ++ (hdr ++ '\n' :: (body ++ tks ++ rest)) ∧
    ∀ c ∈ hdr, isLineTerminator c = false

/-- A fenced code block of `s` whose opening fence starts at index `i`. -/
def BlockAt (s : List Char) (i : Nat) (body : List Char) : Prop :=
  ∃ pre, pre.length = i ∧ HeadBlock (s.drop i) body ∧ s = pre ++ s.drop i

theorem tks_append_drop (x : List Char) : (tks ++ x).drop 3 = x := rfl

theorem tryBlock_some (l : List Char) (b : List Char) (h : tryBlock l = some b) :
    HeadBlock l b ∧ ∀ b2, HeadBlock l b2 → b.length ≤ b2.length := by
  unfold tryBlock at h
  by_cases hf : hasPref tks l = true
  · rw [if_pos hf] at h
    obtain ⟨t, ht⟩ := (hasPref_iff tks l).1 hf
    cases han : afterNewline (l.drop 3) with
    | none => rw [han] at h; cases h
    | some r =>
      rw [han] at h
      obtain ⟨g, hg, hgn⟩ := afterNewline_some (l.drop 3) r han
      obtain ⟨⟨t2, ht2⟩, hmin⟩ := bodyToFence_some r b h
      have hdrop : l.drop 3 = t := by rw [ht]; exact tks_append_drop t
      have htg : t = g ++ '\n' :: r := by rw [← hdrop]; exact hg
      constructor
      · refine ⟨g, t2, ?_, hgn⟩
        rw [ht, htg, ht2]
      · intro b2 hb2
        obtain ⟨h2, r2, heq2, hn2⟩ := hb2
        have ht3 : l.drop 3 = h2 ++ '\n' :: (b2 ++ tks ++ r2) := by
          rw [heq2]; exact tks_append_drop _
        obtain ⟨_, hr⟩ := newline_split_unique g h2 r (b2 ++ tks ++ r2)
          (hg.symm.trans ht3) (noLT_not_mem_nl g hgn) (noLT_not_mem_nl h2 hn2)
        exact hmin b2 r2 hr
  · rw [if_neg hf] at h; cases h

theorem tryBlock_none (l : List Char) (h : tryBlock l = none) :
    ∀ b, ¬ HeadBlock l b := by
  intro b hb
  obtain ⟨hdr, rest, heq, hn⟩ := hb
  unfold tryBlock at h
  have hf : hasPref tks l = true :=
    (hasPref_iff tks l).2 ⟨_, heq⟩
  rw [if_pos hf] at h
  have hdrop : l.drop 3 = hdr ++ '\n' :: (b ++ tks ++ rest) := by
    rw [heq]; exact tks_append_drop _
  rw [hdrop, afterNewline_complete _ hdr hn] at h
  exact bodyToFence_none _ h b rest rfl

theorem blockAt_zero (s b : List Char) : BlockAt s 0 b ↔ HeadBlock s b := by
  constructor
  · rintro ⟨pre, hlen, hhead, heq⟩
    rw [List.length_eq_zero] at hlen
    subst hlen
    simpa using hhead
  · intro hh
    exact ⟨[], rfl, by simpa using hh, by simp⟩

theorem blockAt_succ (c : Char) (s : List Char) (i : Nat) (b : List Char) :
    BlockAt (c :: s) (i + 1) b ↔ BlockAt s i b := by
  constructor
  · rintro ⟨pre, hlen, hhead, heq⟩
    cases pre with
    | nil => cases hlen
    | cons p ps =>
      refine ⟨ps, by simpa using hlen, by simpa using hhead, ?_⟩
      simpa using congrArg List.tail heq
  · rintro ⟨pre, hlen, hhead, heq⟩
    exact ⟨c :: pre, by simpa using hlen, by simpa using hhead,
      by simpa using heq⟩

theorem firstCodeBlock_none (s : List Char) (h : firstCodeBlock s = none) :
    ∀ i b, ¬ BlockAt s i b := by
  induction s with
  | nil =>
    rintro i b ⟨pre, hlen, ⟨hdr, rest, heq, _⟩, _⟩
    have := congrArg List.length heq
    simp [tks_eq] at this
  | cons c cs ih =>
    rw [firstCodeBlock] at h
    cases ht : tryBlock (c :: cs) with
    | some b0 => rw [ht] at h; cases h
    | none =>
      rw [ht] at h
      intro i b hb
      cases i with
      | zero => exact tryBlock_none _ ht b ((blockAt_zero _ _).1 hb)
      | succ j => exact ih h j b ((blockAt_succ c cs j b).1 hb)

theorem firstCodeBlock_some (s : List Char) : ∀ b,
    firstCodeBlock s = some b →
    ∃ i, BlockAt s i b ∧ (∀ j b2, BlockAt s j b2 → i ≤ j) ∧
      (∀ b2, BlockAt s i b2 → b.length ≤ b2.length) := by
  induction s with
  | nil => intro b h; cases h
  | cons c cs ih =>
    intro b h
    rw [firstCodeBlock] at h
    cases ht : tryBlock (c :: cs) with
    | some b0 =>
      rw [ht] at h
      injection h with hb
      subst hb
      obtain ⟨hhead, hmin⟩ := tryBlock_some _ _ ht
      exact ⟨0, (blockAt_zero _ _).2 hhead, fun j b2 _ => Nat.zero_le j,
        fun b2 hb2 => hmin b2 ((blockAt_zero _ _).1 hb2)⟩
    | none =>
      rw [ht] at h
      obtain ⟨i, h1, h2, h3⟩ := ih b h
      refine ⟨i + 1, (blockAt_succ c cs i b).2 h1, ?_,
        fun b2 hb2 => h3 b2 ((blockAt_succ c cs i b2).1 hb2)⟩
      intro j b2 hb2
      cases j with
      | zero => exact absurd ((blockAt_zero _ _).1 hb2) (tryBlock_none _ ht b2)
      | succ j2 =>
        exact Nat.succ_le_succ (h2 j2 b2 ((blockAt_succ c cs j2 b2).1 hb2))

/-- C4: `parseSolution` extracts a fenced code block by pattern matching:
when the text contains at least one fenced block (in the regex's sense: a
fence, a header line free of line terminators ended by an LF, the body, a
closing fence), the code field is the body of the first such block —
earliest opening fence, and shortest body at that fence; otherwise the
code field is the entire solution text unchanged. -/
theorem claim_C4_first_code_block :
    ∀ s : List Char,
      (∃ i, BlockAt s i ((ProcessingHelper.parseSolution s).code) ∧
          (∀ j b2, BlockAt s j b2 → i ≤ j) ∧
          (∀ b2, BlockAt s i b2 →
            ((ProcessingHelper.parseSolution s).code).length ≤ b2.length)) ∨
      ((∀ i b, ¬ BlockAt s i b) ∧ (ProcessingHelper.parseSolution s).code = s) := by
  intro s
  cases h : firstCodeBlock s with
  | some b =>
    left
    have hc : (ProcessingHelper.parseSolution s).code = b := by
      simp [ProcessingHelper.parseSolution, h]
    rw [hc]
    exact firstCodeBlock_some s b h
  | none =>
    right
    exact ⟨firstCodeBlock_none s h,
      by simp [ProcessingHelper.parseSolution, h]⟩

/-! ## Claim C5 -/

/-- `m` matches the complexity regex `<type>\s*complexity.*?[OΘΩ]\([^)]+\)`
(flag i): the type literal case-insensitively, a whitespace run,
"complexity" case-insensitively, a gap free of line terminators, a class
character, and a nonempty parenthesised group without ')'. -/
def ComplexityPat (ty m : List Char) : Prop :=
  ∃ tpart wpart cpart gap big inner,
    m = tpart ++ wpart ++ cpart ++ gap ++ big :: '(' :: (inner ++ [')']) ∧
    matchesCI ty tpart = true ∧ tpart.length = ty.length ∧
    (∀ c ∈ wpart, isJsSpace c = true) ∧
    matchesCI cmplxStr cpart = true ∧ cpart.length = cmplxStr.length ∧
    (∀ c ∈ gap, isLineTerminator c = false) ∧
    isBigO big = true ∧ inner ≠ [] ∧ ')' ∉ inner

theorem matchesCI_take (p : List Char) : ∀ l, matchesCI p l = true →
    matchesCI p (l.take p.length) = true ∧ (l.take p.length).length = p.length := by
  induction p with
  | nil => intro l _; simp [matchesCI]
  | cons x ps ih =>
    intro l h
    cases l with
    | nil => simp [matchesCI] at h
    | cons c cs =>
      rw [matchesCI, Bool.and_eq_true] at h
      obtain ⟨h1, h2⟩ := ih cs h.2
      refine ⟨?_, by simpa using h2⟩
      simpa [matchesCI, h.1] using h1

theorem matchesCI_of_prefix (p : List Char) : ∀ t x, matchesCI p t = true →
    t.length = p.length → matchesCI p (t ++ x) = true := by
  induction p with
  | nil => intro t x _ _; simp [matchesCI]
  | cons c ps ih =>
    intro t x h hlen
    cases t with
    | nil => simp at hlen
    | cons c2 ts =>
      rw [matchesCI, Bool.and_eq_true] at h
      rw [List.cons_append, matchesCI, Bool.and_eq_true]
      exact ⟨h.1, ih ts x h.2 (by simpa using hlen)⟩

theorem takeWhile_run (p : Char → Bool) : ∀ (w : List Char) (x : Char)
    (t : List Char), (∀ c ∈ w, p c = true) → p x = false →
    (w ++ x :: t).takeWhile p = w ∧ (w ++ x :: t).dropWhile p = x :: t := by
  intro w
  induction w with
  | nil => intro x t _ hx; simp [List.takeWhile, List.dropWhile, hx]
  | cons c cs ih =>
    intro x t hall hx
    have hc : p c = true := hall c (by simp)
    obtain ⟨h1, h2⟩ := ih x t (fun d hd => hall d (by simp [hd])) hx
    constructor
    · simpa [List.takeWhile, hc] using h1
    · simpa [List.dropWhile, hc] using h2

theorem take_of_append (t x : List Char) (n : Nat) (h : t.length = n) :
    (t ++ x).take n = t ∧ (t ++ x).drop n = x := by
  subst h
  exact ⟨List.take_left t x, List.drop_left t x⟩

theorem parenGroup_some (l g rest : List Char) (h : parenGroup l = some (g, rest)) :
    ∃ inner, l = '(' :: (inner ++ ')' :: rest) ∧
      g = '(' :: inner ++ [')'] ∧ inner ≠ [] ∧ ')' ∉ inner := by
  cases l with
  | nil => simp [parenGroup] at h
  | cons c cs =>
    by_cases hc : c = '('
    · subst hc
      rw [parenGroup] at h
      simp only [beq_self_eq_true, if_true] at h
      by_cases he : (cs.takeWhile (fun d => d != ')')).isEmpty = true
      · rw [if_pos he] at h; cases h
      · rw [if_neg he] at h
        cases hd : cs.dropWhile (fun d => d != ')') with
        | nil => rw [hd] at h; cases h
        | cons d ds =>
          rw [hd] at h
          dsimp only at h
          by_cases hdp : (d == ')') = true
          · rw [if_pos hdp] at h
            rw [beq_iff_eq] at hdp
            subst hdp
            injection h with h1
            injection h1 with hg hrest
            refine ⟨cs.takeWhile (fun d => d != ')'), ?_, ?_, ?_, ?_⟩
            · rw [← hrest]
              conv_lhs => rw [show cs = cs.takeWhile (fun d => d != ')') ++
                cs.dropWhile (fun d => d != ')') from
                  (List.takeWhile_append_dropWhile _ _).symm]
              rw [hd]
            · exact hg.symm
            · simpa [List.isEmpty_iff] using he
            · intro hm
              have := List.mem_takeWhile_imp hm
              simp at this
          · rw [if_neg hdp] at h
            cases h
    · rw [parenGroup, if_neg (by simpa using hc)] at h
      cases h

theorem parenGroup_complete (inner rest : List Char) (hne : inner ≠ [])
    (hnp : ')' ∉ inner) :
    parenGroup ('(' :: (inner ++ ')' :: rest)) =
      some ('(' :: inner ++ [')'], rest) := by
  obtain ⟨h1, h2⟩ := takeWhile_run (fun d => d != ')') inner ')' rest
    (fun c hc => by
      simp only [bne_iff_ne, ne_eq, decide_eq_true_eq]
      exact fun e => hnp (e ▸ hc)) (by simp)
  rw [parenGroup]
  simp only [beq_self_eq_true, if_true, h1, h2]
  rw [if_neg (by simpa [List.isEmpty_iff] using hne)]

theorem scanBigO_some (l : List Char) : ∀ m rest, scanBigO l = some (m, rest) →
    ∃ gap big inner, l = gap ++ big :: '(' :: (inner ++ ')' :: rest) ∧
      m = gap ++ big :: '(' :: (inner ++ [')']) ∧
      (∀ c ∈ gap, isLineTerminator c = false) ∧ isBigO big = true ∧
      inner ≠ [] ∧ ')' ∉ inner := by
  induction l with
  | nil => intro m rest h; simp [scanBigO] at h
  | cons c cs ih =>
    intro m rest h
    rw [scanBigO] at h
    by_cases hb : isBigO c = true
    · rw [if_pos hb] at h
      cases hp : parenGroup cs with
      | some pr =>
        obtain ⟨pg, prest⟩ := pr
        rw [hp] at h
        obtain ⟨inner, hcs, hg, hne, hnp⟩ := parenGroup_some cs pg prest hp
        injection h with h1
        injection h1 with hm hrest
        subst hrest
        refine ⟨[], c, inner, by simp [hcs], ?_, by simp, hb, hne, hnp⟩
        rw [← hm, hg]
        simp
      | none =>
        rw [hp] at h
        by_cases hl : isLineTerminator c = true
        · rw [if_pos hl] at h; cases h
        · rw [if_neg hl] at h
          cases hs : scanBigO cs with
          | none => rw [hs] at h; cases h
          | some p2 =>
            obtain ⟨m2, rest2⟩ := p2
            rw [hs] at h
            injection h with h1
            injection h1 with hm hrest
            obtain ⟨gap, big, inner, e1, e2, e3, e4, e5, e6⟩ := ih m2 rest2 hs
            refine ⟨c :: gap, big, inner, ?_, ?_, ?_, e4, e5, e6⟩
            · rw [← hrest]; simp [e1]
            · rw [← hm, e2]; simp
            · intro x hx
              rcases List.mem_cons.1 hx with hx1 | hx2
              · subst hx1; simpa using hl
              · exact e3 x hx2
    · rw [if_neg hb] at h
      by_cases hl : isLineTerminator c = true
      · rw [if_pos hl] at h; cases h
      · rw [if_neg hl] at h
        cases hs : scanBigO cs with
        | none => rw [hs] at h; cases h
        | some p2 =>
          obtain ⟨m2, rest2⟩ := p2
          rw [hs] at h
          injection h with h1
          injection h1 with hm hrest
          obtain ⟨gap, big, inner, e1, e2, e3, e4, e5, e6⟩ := ih m2 rest2 hs
          refine ⟨c :: gap, big, inner, ?_, ?_, ?_, e4, e5, e6⟩
          · rw [← hrest]; simp [e1]
          · rw [← hm, e2]; simp
          · intro x hx
            rcases List.mem_cons.1 hx with hx1 | hx2
            · subst hx1; simpa using hl
            · exact e3 x hx2

/-- A character that case-folds onto 'c' is not JS whitespace: forces the
greedy `\s*` to stop exactly before "complexity". -/
theorem eqCI_c_not_space (c0 : Char) (hsp : isJsSpace c0 = true) :
    eqCI c0 'c' = false := by
  rw [isJsSpace] at hsp
  simp only [Bool.or_eq_true, beq_iff_eq, or_assoc] at hsp
  rcases hsp with rfl|rfl|rfl|rfl|rfl|rfl|rfl|rfl|rfl|rfl|rfl|rfl|rfl|rfl|rfl|rfl|
    rfl|rfl|rfl|rfl|rfl|rfl|rfl|rfl|rfl <;> decide

theorem scanBigO_complete : ∀ (gap : List Char) (big : Char) (inner rest : List Char),
    (∀ c ∈ gap, isLineTerminator c = false) → isBigO big = true →
    inner ≠ [] → ')' ∉ inner →
    (scanBigO (gap ++ big :: '(' :: (inner ++ ')' :: rest))).isSome = true := by
  intro gap
  induction gap with
  | nil =>
    intro big inner rest _ hb hne hnp
    rw [List.nil_append, scanBigO, if_pos hb, parenGroup_complete inner rest hne hnp]
    simp
  | cons c cs ih =>
    intro big inner rest hall hb hne hnp
    have hcl : isLineTerminator c = false := hall c (by simp)
    have ihr := ih big inner rest (fun x hx => hall x (by simp [hx])) hb hne hnp
    rw [List.cons_append, scanBigO]
    by_cases hbc : isBigO c = true
    · rw [if_pos hbc]
      cases hp : parenGroup (cs ++ big :: '(' :: (inner ++ ')' :: rest)) with
      | some pr => simp
      | none =>
        rw [if_neg (by simp [hcl])]
        simpa using ihr
    · rw [if_neg hbc, if_neg (by simp [hcl])]
      simpa using ihr

theorem tryComplexityAt_some (ty l m : List Char)
    (h : tryComplexityAt ty l = some m) :
    (∃ post, l = m ++ post) ∧ ComplexityPat ty m := by
  unfold tryComplexityAt at h
  by_cases h1 : matchesCI ty l = true
  · rw [if_pos h1] at h
    dsimp only at h
    by_cases h2 : matchesCI cmplxStr ((l.drop ty.length).dropWhile isJsSpace) = true
    · rw [if_pos h2] at h
      cases hs : scanBigO (((l.drop ty.length).dropWhile isJsSpace).drop
          cmplxStr.length) with
      | none => rw [hs] at h; cases h
      | some p =>
        obtain ⟨m3, rest3⟩ := p
        rw [hs] at h
        injection h with hm
        obtain ⟨hm1, hlen1⟩ := matchesCI_take ty l h1
        obtain ⟨hm2, hlen2⟩ := matchesCI_take cmplxStr _ h2
        obtain ⟨gap, big, inner, e1, e2, e3, e4, e5, e6⟩ :=
          scanBigO_some _ m3 rest3 hs
        have e7 : ((l.drop ty.length).dropWhile isJsSpace).drop cmplxStr.length =
            m3 ++ rest3 := by
          rw [e1, e2]; simp
        constructor
        · refine ⟨rest3, ?_⟩
          rw [← hm]
          conv_lhs => rw [← List.take_append_drop ty.length l]
          conv_lhs => rw [← List.takeWhile_append_dropWhile (p := isJsSpace)
            (l := l.drop ty.length)]
          conv_lhs => rw [← List.take_append_drop cmplxStr.length
            ((l.drop ty.length).dropWhile isJsSpace), e7]
          simp
        · refine ⟨l.take ty.length, (l.drop ty.length).takeWhile isJsSpace,
            ((l.drop ty.length).dropWhile isJsSpace).take cmplxStr.length,
            gap, big, inner, ?_, hm1, hlen1, ?_, hm2, hlen2, e3, e4, e5, e6⟩
          · rw [← hm, e2]; simp
          · intro c hc
            exact List.mem_takeWhile_imp hc
    · rw [if_neg h2] at h; cases h
  · rw [if_neg h1] at h; cases h

theorem tryComplexityAt_complete (ty m post : List Char) (hp : ComplexityPat ty m) :
    (tryComplexityAt ty (m ++ post)).isSome = true := by
  obtain ⟨tpart, wpart, cpart, gap, big, inner, heq, ht1, ht2, hw, hc1, hc2,
    hg, hb, hne, hnp⟩ := hp
  have hl : m ++ post = tpart ++ (wpart ++ (cpart ++
      (gap ++ big :: '(' :: (inner ++ ')' :: post)))) := by
    rw [heq]; simp
  obtain ⟨c0, cp2, hcp⟩ : ∃ c0 cp2, cpart = c0 :: cp2 := by
    cases hx : cpart with
    | nil => rw [hx] at hc2; simp [cmplxStr] at hc2
    | cons a b => exact ⟨a, b, rfl⟩
  unfold tryComplexityAt
  have h1 : matchesCI ty (m ++ post) = true := by
    rw [hl]; exact matchesCI_of_prefix ty tpart _ ht1 ht2
  rw [if_pos h1]
  dsimp only
  have hdrop : (m ++ post).drop ty.length = wpart ++ c0 :: (cp2 ++
      (gap ++ big :: '(' :: (inner ++ ')' :: post))) := by
    rw [hl, ← ht2, (take_of_append tpart _ _ rfl).2, hcp]
    simp
  have hc0 : eqCI c0 'c' = true := by
    rw [hcp, show cmplxStr = 'c' :: "omplexity".toList from rfl,
      matchesCI, Bool.and_eq_true] at hc1
    exact hc1.1
  have hstop : isJsSpace c0 = false := by
    cases hsp : isJsSpace c0
    · rfl
    · rw [eqCI_c_not_space c0 hsp] at hc0; cases hc0
  obtain ⟨htw, hdw⟩ := takeWhile_run isJsSpace wpart c0
    (cp2 ++ (gap ++ big :: '(' :: (inner ++ ')' :: post))) hw hstop
  rw [hdrop, hdw]
  have h2 : matchesCI cmplxStr (c0 :: (cp2 ++
      (gap ++ big :: '(' :: (inner ++ ')' :: post)))) = true := by
    have := matchesCI_of_prefix cmplxStr cpart
      (gap ++ big :: '(' :: (inner ++ ')' :: post)) hc1 hc2
    rw [hcp] at this
    simpa using this
  rw [if_pos h2]
  have h3 : (c0 :: (cp2 ++ (gap ++ big :: '(' :: (inner ++ ')' :: post)))).drop
      cmplxStr.length = gap ++ big :: '(' :: (inner ++ ')' :: post) := by
    have := (take_of_append cpart
      (gap ++ big :: '(' :: (inner ++ ')' :: post)) cmplxStr.length hc2).2
    rw [hcp] at this
    simpa using this
  rw [h3]
  obtain ⟨pr, hpr⟩ := Option.isSome_iff_exists.1
    (scanBigO_complete gap big inner post hg hb hne hnp)
  obtain ⟨pm, prr⟩ := pr
  rw [hpr]
  simp

theorem complexityPat_ne_nil (ty m : List Char) (h : ComplexityPat ty m) :
    m ≠ [] := by
  obtain ⟨t, w, c, g, big, inner, heq, _⟩ := h
  rw [heq]
  simp

theorem firstComplexity_some (ty : List Char) : ∀ s m,
    firstComplexity ty s = some m →
    ∃ pre post, s = pre ++ m ++ post ∧ ComplexityPat ty m ∧
      ∀ pre2 m2 post2, s = pre2 ++ m2 ++ post2 → ComplexityPat ty m2 →
        pre.length ≤ pre2.length := by
  intro s
  induction s with
  | nil => intro m h; cases h
  | cons c cs ih =>
    intro m h
    rw [firstComplexity] at h
    cases ht : tryComplexityAt ty (c :: cs) with
    | some m0 =>
      rw [ht] at h
      injection h with hm
      subst hm
      obtain ⟨⟨post, hpost⟩, hpat⟩ := tryComplexityAt_some ty (c :: cs) m0 ht
      exact ⟨[], post, by simpa using hpost, hpat,
        fun pre2 m2 post2 _ _ => Nat.zero_le _⟩
    | none =>
      rw [ht] at h
      obtain ⟨pre, post, e1, e2, e3⟩ := ih m h
      refine ⟨c :: pre, post, by simp [e1], e2, ?_⟩
      intro pre2 m2 post2 hs2 hp2
      cases pre2 with
      | nil =>
        exfalso
        have hc := tryComplexityAt_complete ty m2 post2 hp2
        rw [show m2 ++ post2 = c :: cs from by simpa using hs2.symm, ht] at hc
        cases hc
      | cons c2 pre2t =>
        rw [List.cons_append] at hs2
        injection hs2 with _ hcs
        simpa using Nat.succ_le_succ (e3 pre2t m2 post2 hcs hp2)

theorem firstComplexity_none (ty : List Char) : ∀ s,
    firstComplexity ty s = none →
    ∀ pre m post, s = pre ++ m ++ post → ¬ ComplexityPat ty m := by
  intro s
  induction s with
  | nil =>
    intro _ pre m post heq hp
    have hm : m = [] := by
      cases pre with
      | nil =>
        rw [List.nil_append] at heq
        exact (List.append_eq_nil.1 heq.symm).1
      | cons a b => simp at heq
    exact complexityPat_ne_nil ty m hp hm
  | cons c cs ih =>
    intro h pre m post heq hp
    rw [firstComplexity] at h
    cases ht : tryComplexityAt ty (c :: cs) with
    | some m0 => rw [ht] at h; cases h
    | none =>
      rw [ht] at h
      cases pre with
      | nil =>
        have hc := tryComplexityAt_complete ty m post hp
        rw [show m ++ post = c :: cs from by simpa using heq.symm, ht] at hc
        cases hc
      | cons c2 pret =>
        rw [List.cons_append] at heq
        injection heq with _ hcs
        exact ih h pret m post hcs hp

theorem scanToComplexity_some (ty : List Char) : ∀ l g,
    OpenAIServiceEnvKey.scanToComplexity ty l = some g →
    ∃ pre m post, l = pre ++ m ++ post ∧ ComplexityPat ty m := by
  intro l
  induction l with
  | nil =>
    intro g h
    rw [OpenAIServiceEnvKey.scanToComplexity] at h
    obtain ⟨⟨post, hpost⟩, hpat⟩ := tryComplexityAt_some ty [] g h
    exact ⟨[], g, post, by simpa using hpost, hpat⟩
  | cons c cs ih =>
    intro g h
    rw [OpenAIServiceEnvKey.scanToComplexity] at h
    cases ht : tryComplexityAt ty (c :: cs) with
    | some m0 =>
      rw [ht] at h
      obtain ⟨⟨post, hpost⟩, hpat⟩ := tryComplexityAt_some ty (c :: cs) m0 ht
      exact ⟨[], m0, post, by simpa using hpost, hpat⟩
    | none =>
      rw [ht] at h
      cases hs : OpenAIServiceEnvKey.scanToComplexity ty cs with
      | none => rw [hs] at h; cases h
      | some g0 =>
        obtain ⟨pre, m, post, e1, e2⟩ := ih g0 hs
        exact ⟨c :: pre, m, post, by simp [e1], e2⟩

theorem trySectionAt_sub (ty l sec : List Char)
    (h : OpenAIServiceEnvKey.trySectionAt ty l = some sec) :
    ∃ pre m post, l = pre ++ m ++ post ∧ ComplexityPat ty m := by
  unfold OpenAIServiceEnvKey.trySectionAt at h
  by_cases hf : matchesCI OpenAIServiceEnvKey.secHdr l = true
  · rw [if_pos hf] at h
    cases hs : OpenAIServiceEnvKey.scanToComplexity ty
        (l.drop OpenAIServiceEnvKey.secHdr.length) with
    | none => rw [hs] at h; cases h
    | some g =>
      obtain ⟨pre, m, post, e1, e2⟩ := scanToComplexity_some ty _ g hs
      refine ⟨l.take OpenAIServiceEnvKey.secHdr.length ++ pre, m, post, ?_, e2⟩
      conv_lhs => rw [← List.take_append_drop OpenAIServiceEnvKey.secHdr.length l, e1]
      simp
  · rw [if_neg hf] at h; cases h

theorem firstSection_sub (ty : List Char) : ∀ s sec,
    OpenAIServiceEnvKey.firstSection ty s = some sec →
    ∃ pre m post, s = pre ++ m ++ post ∧ ComplexityPat ty m := by
  intro s
  induction s with
  | nil => intro sec h; cases h
  | cons c cs ih =>
    intro sec h
    rw [OpenAIServiceEnvKey.firstSection] at h
    cases ht : OpenAIServiceEnvKey.trySectionAt ty (c :: cs) with
    | some m0 =>
      rw [ht] at h
      exact trySectionAt_sub ty (c :: cs) m0 ht
    | none =>
      rw [ht] at h
      obtain ⟨pre, m, post, e1, e2⟩ := ih sec h
      exact ⟨c :: pre, m, post, by simp [e1], e2⟩

/-- C5 (counterexample to the claim as stated): on the empty text — which
contains no substring matching the complexity pattern — the
extractComplexity of the first (environment-key) OpenAIService variant
returns "Time complexity: O(n)", not the claimed fixed fallback
"Time complexity not specified". -/
theorem claim_C5_counterexample :
    OpenAIServiceEnvKey.extractComplexity [] CType.time =
        "Time complexity: O(n)".toList ∧
      OpenAIServiceEnvKey.extractComplexity [] CType.time ≠
        "Time complexity not specified".toList ∧
      ProcessingHelper.extractComplexity [] CType.time =
        "Time complexity not specified".toList := by
  refine ⟨rfl, by decide, rfl⟩

/-- C5 (amended): `extractComplexity` of ProcessingHelper and of the
store-based OpenAIService return the first (leftmost-starting) substring
of the text matching `<type> complexity ... O/Θ/Ω(...)` when one exists
and the fixed string "<Type> complexity not specified" otherwise; the
first (environment-key) OpenAIService variant may return a different
match — it searches a "## Complexity" section first — and when no
matching substring exists anywhere it returns "<Type> complexity: O(n)"
instead. -/
theorem claim_C5_extract_complexity :
    ∀ (s : List Char) (ty : CType),
      (∃ m pre post, firstComplexity ty.str s = some m ∧
          s = pre ++ m ++ post ∧ ComplexityPat ty.str m ∧
          (∀ pre2 m2 post2, s = pre2 ++ m2 ++ post2 → ComplexityPat ty.str m2 →
            pre.length ≤ pre2.length) ∧
          ProcessingHelper.extractComplexity s ty = m ∧
          OpenAIServiceStore.extractComplexity s ty = m) ∨
      ((∀ pre m post, s = pre ++ m ++ post → ¬ ComplexityPat ty.str m) ∧
        ProcessingHelper.extractComplexity s ty =
          capFirst ty.str ++ " complexity not specified".toList ∧
        OpenAIServiceStore.extractComplexity s ty =
          capFirst ty.str ++ " complexity not specified".toList ∧
        OpenAIServiceEnvKey.extractComplexity s ty =
          capFirst ty.str ++ " complexity: O(n)".toList) := by
  intro s ty
  cases h : firstComplexity ty.str s with
  | some m =>
    left
    obtain ⟨pre, post, e1, e2, e3⟩ := firstComplexity_some ty.str s m h
    exact ⟨m, pre, post, rfl, e1, e2, e3,
      by simp [ProcessingHelper.extractComplexity, h],
      by simp [OpenAIServiceStore.extractComplexity, h]⟩
  | none =>
    right
    have hno := firstComplexity_none ty.str s h
    refine ⟨hno, by simp [ProcessingHelper.extractComplexity, h],
      by simp [OpenAIServiceStore.extractComplexity, h], ?_⟩
    cases hsec : OpenAIServiceEnvKey.firstSection ty.str s with
    | some sec =>
      exfalso
      obtain ⟨pre, m, post, e1, e2⟩ := firstSection_sub ty.str s sec hsec
      exact hno pre m post e1 e2
    | none =>
      simp [OpenAIServiceEnvKey.extractComplexity, hsec, h]

end GtmPal
